import Mathlib
/-!
Verification of the AstraNode knowledge-graph engine.

This file is a shallow embedding, in Lean 4, of the graph construction and
knowledge-discovery engine of the repository:

* `src/utils/paperAnalyzer.js` — similarity scoring and connection finding
  (the OpenAI-backed analyzer);
* `src/unnamed/part_000` — the demo analyzer variant of the same
  (`DemoAnalyzer`): similarity scoring and connection finding;
* `src/unnamed/part_001` — the graph builder (`GraphBuilder`): node/edge
  assembly, degrees, connected-component clustering, degree centrality;
* `src/utils/graphRAG.js` — the query engine (`GraphRAG`): keyword search,
  graph expansion, insight fallback, subgraph context, multi-hop path search.

Modelling conventions:

* JavaScript numbers are modelled as `ℚ` (and `ℝ` where `Math.sqrt` is
  involved).  A JavaScript division that produces a non-finite value
  (`0/0 = NaN`, `x/0 = ±Infinity`) is modelled as `none` of an `Option`
  type; finite results are `some`.  `NaN` propagates through `+` and
  `Math.min`, which `Option.map` reproduces faithfully at the places the
  code adds further terms to a possibly-`NaN` quantity.
* JavaScript `Set` objects are modelled as `Finset String` when only
  membership and cardinality matter, and as first-occurrence-deduplicated
  lists when iteration order matters (JS sets iterate in insertion order).
* JavaScript `Map` objects are modelled as functions built by successive
  functional update, so that later `set` calls overwrite earlier ones.
* `Array.prototype.sort` with comparator `(a, b) => key(b) - key(a)` is
  modelled as a stable insertion sort in descending key order
  (V8's sort is stable).
* String handling is modelled at ASCII granularity (`String.toLower`,
  `Char.isWhitespace`, `Char.isAlphanum`), which covers the repository's
  data (English paper titles and concepts).
-/

namespace AstraNode

/-- JavaScript division of two naturals as it appears in the source
(`intersection.size / union.size`): when the denominator is `0` the JS
result is non-finite (`0/0 = NaN`), modelled as `none`. -/
def jsDivNat (a b : ℕ) : Option ℚ :=
  if b = 0 then none else some ((a : ℚ) / (b : ℚ))

/-- JavaScript division of two rationals; a zero denominator yields a
non-finite JS value (`NaN` or `±Infinity`), modelled as `none`. -/
def jsDivQ (a b : ℚ) : Option ℚ :=
  if b = 0 then none else some (a / b)

/-- Deduplication keeping the first occurrence of each element, in order:
the iteration order of a JavaScript `Set` built by successive `add` calls. -/
def firstDedup {α : Type} [DecidableEq α] (l : List α) : List α :=
  l.foldl (fun acc x => if x ∈ acc then acc else acc ++ [x]) []

/-- One step of the stable descending insertion sort modelling
`Array.prototype.sort((a, b) => key(b) - key(a))`. -/
def insDesc {α β : Type} [LinearOrder β] (key : α → β) (x : α) : List α → List α
  | [] => [x]
  | y :: ys => if key x < key y then y :: insDesc key x ys else x :: y :: ys

/-- Stable sort in descending key order, modelling
`Array.prototype.sort((a, b) => key(b) - key(a))` (V8 sort is stable). -/
def sortByKeyDesc {α β : Type} [LinearOrder β] (key : α → β) : List α → List α
  | [] => []
  | x :: xs => insDesc key x (sortByKeyDesc key xs)

/-- Maximal whitespace-separated runs of a character list, accumulator-based. -/
def wsRunsAux : List Char → List Char → List (List Char)
  | [], cur => if cur = [] then [] else [cur.reverse]
  | c :: rest, cur =>
    if c.isWhitespace then
      (if cur = [] then wsRunsAux rest [] else cur.reverse :: wsRunsAux rest [])
    else wsRunsAux rest (c :: cur)

/-- The maximal non-whitespace runs of a string, in order: the non-empty
fields of the JavaScript `split(/\s+/)`. -/
def wsRuns (s : String) : List String :=
  (wsRunsAux s.data []).map List.asString

/-- JavaScript `str.split(/\s+/)`: the non-whitespace runs, plus an empty
field at the front when the string starts with whitespace (or is empty) and
at the back when it ends with whitespace. -/
def jsSplitWs (s : String) : List String :=
  match s.data with
  | [] => [""]
  | c :: _ =>
    (if c.isWhitespace then [""] else []) ++ wsRuns s ++
      (if s.data.getLast!.isWhitespace then [""] else [])

/-- Non-overlapping left-to-right occurrence count of `needle` in `hay`,
fuel-based (fuel `hay.length + 1` always suffices): the match count of
`hay.match(new RegExp(term, 'g'))` for a term without regex metacharacters. -/
def countOccsAux (needle : List Char) : ℕ → List Char → ℕ
  | 0, _ => 0
  | _ + 1, [] => 0
  | fuel + 1, c :: rest =>
    if needle ≠ [] ∧ needle.isPrefixOf (c :: rest) then
      1 + countOccsAux needle fuel ((c :: rest).drop needle.length)
    else countOccsAux needle fuel rest

/-- Number of non-overlapping occurrences of `needle` in `hay`. -/
def countOccs (needle hay : String) : ℕ :=
  countOccsAux needle.data (hay.data.length + 1) hay.data

/-- Substring containment as JavaScript `hay.includes(needle)`. -/
def jsIncludes (hay needle : String) : Bool :=
  decide (0 < countOccs needle hay)

/-- A research paper record as produced by the analyzers.  Fields that the
JavaScript code reads defensively (`link`, `domain`, `methodology`,
`degree`) are `Option`s, `none` standing for an absent (`undefined`) field. -/
structure Paper where
  id : String
  title : String
  link : Option String := none
  concepts : List String := []
  domain : Option String := none
  methodology : Option String := none
  degree : Option ℕ := none
  deriving DecidableEq

/-- A scored connection between two papers, as pushed by `findConnections`.
The strength is a `ℚ` here; every JavaScript float is a rational, so this
loses nothing for the demo analyzer and the downstream graph modules. -/
structure Connection where
  source : String
  target : String
  strength : ℚ
  sharedConcepts : List String
  deriving DecidableEq

/-- A scored connection of the OpenAI-backed analyzer, whose strength
carries the (real-valued) cosine title term. -/
structure RConnection where
  source : String
  target : String
  strength : ℝ
  sharedConcepts : List String

/-- The lower-cased concept set of a paper:
`new Set(paper.concepts.map(c => c.toLowerCase()))`. -/
def conceptSet (p : Paper) : Finset String :=
  (p.concepts.map String.toLower).toFinset

/-- Case-insensitive shared concepts, `getSharedConcepts` of both analyzers:
the lower-cased concepts of the first paper that the second also has. -/
def getSharedConcepts (p q : Paper) : List String :=
  (firstDedup (p.concepts.map String.toLower)).filter
    (fun c => c ∈ q.concepts.map String.toLower)

end AstraNode

namespace AstraNode.PaperAnalyzer

/-- The stop-word list of `paperAnalyzer.js` (`isStopWord`). -/
def stopWords : List String :=
  ["the", "and", "for", "are", "but", "not", "you", "all", "can", "had",
   "her", "was", "one", "our", "out", "day", "get", "has", "him", "his",
   "how", "man", "new", "now", "old", "see", "two", "way", "who", "boy",
   "did", "its", "let", "put", "say", "she", "too", "use"]

/-- `isStopWord` of `paperAnalyzer.js`. -/
def isStopWord (w : String) : Bool :=
  decide (w.toLower ∈ stopWords)

/-- One character of `title.replace(/[^\w\s]/g, ' ')`: characters outside
`\w` (`[A-Za-z0-9_]`) and `\s` become a space. -/
def sanitizeChar (c : Char) : Char :=
  if c.isAlphanum ∨ c = '_' ∨ c.isWhitespace then c else ' '

/-- `getTitleVector` of `paperAnalyzer.js`, kept as the token multiset:
lower-case, strip punctuation to spaces, split on whitespace, keep tokens of
length `> 2` that are not stop words.  The JS builds a word-count object
from these tokens; counts are recovered with `List.count`. -/
def getTitleVector (title : String) : List String :=
  ((wsRuns (List.asString (title.toLower.data.map sanitizeChar))).filter
    (fun w => 2 < w.length ∧ isStopWord w = false))

/-- The `dotProduct` accumulated by `cosineSimilarity` of
`paperAnalyzer.js`: over every key of either vector, the product of the two
counts (`vec[key] || 0` being `List.count` here). -/
def dotProd (t1 t2 : List String) : ℚ :=
  ∑ k ∈ t1.toFinset ∪ t2.toFinset, (t1.count k : ℚ) * (t2.count k : ℚ)

/-- The `norm1` accumulated by `cosineSimilarity` of `paperAnalyzer.js`:
`val1 * val1` summed over every key of either vector. -/
def normAcc (t1 t2 : List String) : ℚ :=
  ∑ k ∈ t1.toFinset ∪ t2.toFinset, (t1.count k : ℚ) * (t1.count k : ℚ)

/-- `cosineSimilarity` of `paperAnalyzer.js` on two token multisets.  The
JS computes `dotProduct / (Math.sqrt(norm1) * Math.sqrt(norm2)) || 0`; the
`|| 0` converts the `0/0 = NaN` arising when either norm is `0` into `0`
(when both norms are positive the quotient is finite, so the guard below is
exactly the `|| 0`). -/
noncomputable def cosineSimilarity (t1 t2 : List String) : ℝ :=
  if normAcc t1 t2 = 0 ∨ normAcc t2 t1 = 0 then 0
  else (dotProd t1 t2 : ℝ) /
    (Real.sqrt (normAcc t1 t2 : ℝ) * Real.sqrt (normAcc t2 t1 : ℝ))

/-- The domain bonus of `calculateSimilarity` in `paperAnalyzer.js`:
`0.2` when the two domain fields are strictly equal. -/
def domainBonus (p q : Paper) : ℚ :=
  if p.domain = q.domain then 0.2 else 0

/-- The title-similarity term of `calculateSimilarity` in
`paperAnalyzer.js`: cosine similarity of the title vectors, times `0.3`. -/
noncomputable def titleSim (p q : Paper) : ℝ :=
  cosineSimilarity (getTitleVector p.title) (getTitleVector q.title) * 0.3

/-- `calculateSimilarity` of `paperAnalyzer.js`: Jaccard similarity of the
lower-cased concept sets, plus the domain bonus, plus the title term.  When
both concept sets are empty the Jaccard division is `0/0 = NaN` in JS and
the whole sum is `NaN`, modelled as `none`. -/
noncomputable def calculateSimilarity (p q : Paper) : Option ℝ :=
  (jsDivNat (conceptSet p ∩ conceptSet q).card (conceptSet p ∪ conceptSet q).card).map
    (fun jaccardSim => (jaccardSim : ℝ) + (domainBonus p q : ℝ) + titleSim p q)

/-- All ordered pairs `(l[i], l[j])` with `i < j`, in the loop order of
`findConnections`. -/
def pairsAfter {α : Type} : List α → List (α × α)
  | [] => []
  | x :: xs => xs.map (fun y => (x, y)) ++ pairsAfter xs

/-- The connection-threshold test of `findConnections` in
`paperAnalyzer.js`: `similarity > 0.3`; a `NaN` similarity compares false. -/
noncomputable def keepsPair (p q : Paper) : Prop :=
  match calculateSimilarity p q with
  | some s => (0.3 : ℝ) < s
  | none => False

noncomputable instance keepsPairDecidable (p q : Paper) : Decidable (keepsPair p q) := by
  unfold keepsPair
  exact match calculateSimilarity p q with
    | some _ => inferInstanceAs (Decidable _)
    | none => inferInstanceAs (Decidable False)

/-- `findConnections` of `paperAnalyzer.js`: score every `i < j` pair, keep
those with similarity above `0.3`, sort by strength descending, truncate to
`500`.  The strength stored for a kept pair is its (finite) similarity. -/
noncomputable def findConnections (papers : List Paper) : List RConnection :=
  let connections :=
    ((pairsAfter papers).filter (fun pq => keepsPair pq.1 pq.2)).map
      (fun pq =>
        { source := pq.1.id
          target := pq.2.id
          strength := (calculateSimilarity pq.1 pq.2).getD 0
          sharedConcepts := getSharedConcepts pq.1 pq.2 })
  (sortByKeyDesc (fun c => c.strength) connections).take 500

end AstraNode.PaperAnalyzer

namespace AstraNode.DemoAnalyzer

/-- The lower-cased title word set of `calculateSimilarity` in the demo
analyzer (`src/unnamed/part_000`):
`new Set(paper.title.toLowerCase().split(/\s+/))`. -/
def titleWords (p : AstraNode.Paper) : Finset String :=
  (AstraNode.jsSplitWs p.title.toLower).toFinset

/-- The domain bonus of the demo analyzer: `0.3` on strict equality. -/
def domainBonus (p q : AstraNode.Paper) : ℚ :=
  if p.domain = q.domain then 0.3 else 0

/-- The title-overlap term of the demo analyzer:
`titleIntersection.size / Math.max(title1Words.size, title2Words.size) * 0.2`. -/
def titleSim (p q : AstraNode.Paper) : ℚ :=
  ((titleWords p ∩ titleWords q).card : ℚ) /
    (max (titleWords p).card (titleWords q).card : ℚ) * 0.2

/-- `calculateSimilarity` of the demo analyzer: Jaccard plus domain bonus
plus title overlap, clamped with `Math.min(1.0, ·)`.  When both concept
sets are empty the Jaccard division is `0/0 = NaN`, `Math.min(1.0, NaN)` is
`NaN`, and the result is `NaN`, modelled as `none`. -/
def calculateSimilarity (p q : AstraNode.Paper) : Option ℚ :=
  (AstraNode.jsDivNat (AstraNode.conceptSet p ∩ AstraNode.conceptSet q).card
      (AstraNode.conceptSet p ∪ AstraNode.conceptSet q).card).map
    (fun jaccardSim => min 1 (jaccardSim + domainBonus p q + titleSim p q))

/-- The connection-threshold test of the demo analyzer's
`findConnections`: `similarity > 0.2`; a `NaN` similarity compares false. -/
def keepsPair (p q : AstraNode.Paper) : Bool :=
  match calculateSimilarity p q with
  | some s => decide ((0.2 : ℚ) < s)
  | none => false

/-- `findConnections` of the demo analyzer: threshold `0.2`, cap `300`. -/
def findConnections (papers : List AstraNode.Paper) : List AstraNode.Connection :=
  let connections :=
    ((AstraNode.PaperAnalyzer.pairsAfter papers).filter
        (fun pq => keepsPair pq.1 pq.2)).map
      (fun pq =>
        { source := pq.1.id
          target := pq.2.id
          strength := (calculateSimilarity pq.1 pq.2).getD 0
          sharedConcepts := AstraNode.getSharedConcepts pq.1 pq.2 })
  (AstraNode.sortByKeyDesc (fun c => c.strength) connections).take 300

end AstraNode.DemoAnalyzer

namespace AstraNode.GraphBuilder

/-- A graph node as assembled by `buildGraph` of `src/unnamed/part_001`:
the paper fields plus derived `degree`, `cluster` (initially `null`,
modelled `none`) and `centrality` (absent until assigned; the model
initializes it to `0`, the value `calculateCentrality` assigns when it is
ever read). -/
structure GNode where
  id : String
  title : String
  link : Option String
  concepts : List String
  domain : String
  methodology : Option String
  degree : ℕ
  cluster : Option String
  centrality : ℚ
  deriving DecidableEq

/-- A graph edge as assembled by `buildGraph`: a connection plus the
derived categorical `type`. -/
structure Link where
  source : String
  target : String
  strength : ℚ
  sharedConcepts : List String
  type : String
  deriving DecidableEq

/-- The summary statistics of `buildGraph`.  `averageDegree` is a JS
division that is `NaN` for an empty node list, hence the `Option`. -/
structure GraphStats where
  totalNodes : ℕ
  totalLinks : ℕ
  averageDegree : Option ℚ
  clusters : ℕ
  deriving DecidableEq

/-- The graph structure returned by `buildGraph`. -/
structure Graph where
  nodes : List GNode
  links : List Link
  stats : GraphStats
  deriving DecidableEq

/-- `getConnectionType`: `> 0.7` strong, `> 0.5` medium, else weak. -/
def getConnectionType (strength : ℚ) : String :=
  if 0.7 < strength then "strong" else if 0.5 < strength then "medium" else "weak"

/-- One edge of `buildGraph`'s `links` array. -/
def toLink (conn : AstraNode.Connection) : Link :=
  { source := conn.source
    target := conn.target
    strength := conn.strength
    sharedConcepts := conn.sharedConcepts
    type := getConnectionType conn.strength }

/-- The `links` array of `buildGraph`. -/
def buildLinks (connections : List AstraNode.Connection) : List Link :=
  connections.map toLink

/-- One increment of the JS `degreeMap`:
`degreeMap.set(id, (degreeMap.get(id) || 0) + 1)`. -/
def bumpDeg (m : String → ℕ) (id : String) : String → ℕ :=
  fun x => if x = id then m x + 1 else m x

/-- The `degreeMap` of `buildGraph`: every link increments both its source
and its target. -/
def degreeMap (links : List Link) : String → ℕ :=
  links.foldl (fun m l => bumpDeg (bumpDeg m l.source) l.target) (fun _ => 0)

/-- The nodes of `buildGraph` before degree assignment: one node per
paper, `degree` `0`, `cluster` unset, `domain` defaulted to `Unknown`. -/
def initialNodes (papers : List AstraNode.Paper) : List GNode :=
  papers.map (fun p =>
    { id := p.id
      title := p.title
      link := p.link
      concepts := p.concepts
      domain := p.domain.getD "Unknown"
      methodology := p.methodology
      degree := 0
      cluster := none
      centrality := 0 })

/-- The nodes of `buildGraph` after the degree pass:
`node.degree = degreeMap.get(node.id) || 0`. -/
def degreeNodes (papers : List AstraNode.Paper) (connections : List AstraNode.Connection) :
    List GNode :=
  (initialNodes papers).map
    (fun n => { n with degree := degreeMap (buildLinks connections) n.id })

/-- The adjacency list of one node id, as built by `performClustering`:
the other endpoint of every incident link, in link order, first occurrence
kept (JS `Set` insertion order). -/
def adjListOf (links : List Link) (id : String) : List String :=
  AstraNode.firstDedup
    ((links.filter (fun l => l.source = id ∨ l.target = id)).map
      (fun l => if l.source = id then l.target else l.source))

/-- The recursive `dfs` of `GraphBuilder`: visit a node, push it on the
component, and recurse into unvisited neighbours in adjacency order,
threading the visited set.  Fuel-based; fuel exceeding the number of
reachable unvisited ids never runs out (each nested call starts at a fresh
id).  Returns the final visited set and the component in push order. -/
def dfsVisit (adj : String → List String) :
    ℕ → String → Finset String → Finset String × List String
  | 0, _, vis => (vis, [])
  | fuel + 1, id, vis =>
    (adj id).foldl
      (fun acc nb =>
        if nb ∈ acc.1 then acc
        else
          ((dfsVisit adj fuel nb acc.1).1, acc.2 ++ (dfsVisit adj fuel nb acc.1).2))
      (insert id vis, [id])

/-- The outer loop of `performClustering`: for every node id in order,
start a DFS when the id is not yet visited, collecting the connected
components in discovery order. -/
def componentsFold (ids : List String) (adj : String → List String) (fuel : ℕ) :
    Finset String × List (List String) :=
  ids.foldl
    (fun acc id =>
      if id ∈ acc.1 then acc
      else
        ((dfsVisit adj fuel id acc.1).1, acc.2 ++ [(dfsVisit adj fuel id acc.1).2]))
    (∅, [])

/-- The components of `performClustering` run on a node list. -/
def componentsOf (nodes : List GNode) (links : List Link) : List (List String) :=
  (componentsFold (nodes.map (fun n => n.id)) (adjListOf links) (nodes.length + 1)).2

/-- The dominant domain of a component: the JS counts domain occurrences
in a `Map` (insertion order = first occurrence), stable-sorts the entries
by count descending and takes the first key — that is, the domain with the
highest count, earliest first occurrence winning ties. -/
def dominantDomain (ds : List String) : String :=
  match AstraNode.firstDedup ds with
  | [] => ""
  | d0 :: rest =>
    rest.foldl (fun best d => if ds.count best < ds.count d then d else best) d0

/-- `nodes.find(n => n.id === nodeId).domain`; the `getD` default is
unreachable when every component member is a node id. -/
def domainOfId (nodes : List GNode) (id : String) : String :=
  ((nodes.find? (fun n => n.id = id)).map (fun n => n.domain)).getD "Unknown"

/-- The cluster label `` `${dominantDomain}-${clusterId}` `` of the `k`-th
component. -/
def clusterLabel (nodes : List GNode) (c : List String) (k : ℕ) : String :=
  dominantDomain (c.map (domainOfId nodes)) ++ "-" ++ toString k

/-- The `clusters` map of `performClustering`: component `k` sets the label
of each of its members; a later `set` overwrites an earlier one (components
are in fact disjoint, so at most one applies). -/
def labelMapAux (nodes : List GNode) : ℕ → List (List String) → String → Option String
  | _, [] => fun _ => none
  | k, c :: rest => fun x =>
    match labelMapAux nodes (k + 1) rest x with
    | some l => some l
    | none => if x ∈ c then some (clusterLabel nodes c k) else none

/-- `performClustering` of `GraphBuilder`: connected components via DFS,
then one composite label per component, `'unclustered'` as the JS fallback
for an id missing from the map (unreachable: every id lands in a
component). -/
def performClustering (nodes : List GNode) (links : List Link) : List GNode :=
  nodes.map (fun n =>
    { n with
      cluster := some ((labelMapAux nodes 0 (componentsOf nodes links) n.id).getD "unclustered") })

/-- The components that `buildGraph` clusters by. -/
def graphComponents (papers : List AstraNode.Paper)
    (connections : List AstraNode.Connection) : List (List String) :=
  componentsOf (degreeNodes papers connections) (buildLinks connections)

/-- `Math.max(...nodes.map(n => n.degree))` of `calculateCentrality`.  For
an empty node list the JS value is `-Infinity`; no node exists to score in
that case, so the fold default `0` is unobservable. -/
def maxDegree (nodes : List GNode) : ℕ :=
  (nodes.map (fun n => n.degree)).foldr max 0

/-- The normalized degree centrality assigned by `calculateCentrality`:
`maxDegree > 0 ? node.degree / maxDegree : 0`. -/
def centralityOf (nodes : List GNode) (n : GNode) : ℚ :=
  if 0 < maxDegree nodes then (n.degree : ℚ) / (maxDegree nodes : ℚ) else 0

/-- `buildGraph` of `src/unnamed/part_001`: nodes from papers, links from
connections with derived type, degree pass, clustering pass, centrality
pass, and summary statistics. -/
def buildGraph (papers : List AstraNode.Paper)
    (connections : List AstraNode.Connection) : Graph :=
  let links := buildLinks connections
  let nodes1 := degreeNodes papers connections
  let clusteredNodes := performClustering nodes1 links
  let finalNodes :=
    clusteredNodes.map (fun n => { n with centrality := centralityOf clusteredNodes n })
  { nodes := finalNodes
    links := links
    stats :=
      { totalNodes := finalNodes.length
        totalLinks := links.length
        averageDegree := AstraNode.jsDivQ ((nodes1.map (fun n => (n.degree : ℚ))).sum) (nodes1.length : ℚ)
        clusters := (AstraNode.firstDedup (clusteredNodes.map (fun n => n.cluster))).length } }

/-- Two ids joined by some link, in either orientation: the undirected
adjacency underlying `performClustering`. -/
def Adjacent (links : List Link) (a b : String) : Prop :=
  ∃ l ∈ links, (l.source = a ∧ l.target = b) ∨ (l.source = b ∧ l.target = a)

/-- Connectivity in the undirected graph on the link set. -/
def ConnectedIn (links : List Link) : String → String → Prop :=
  Relation.ReflTransGen (Adjacent links)

/-- The per-neighbour step of the `dfsVisit` fold, named for the proofs. -/
def dfsStep (adj : String → List String) (fuel : ℕ) :
    Finset String × List String → String → Finset String × List String :=
  fun acc nb =>
    if nb ∈ acc.1 then acc
    else ((dfsVisit adj fuel nb acc.1).1, acc.2 ++ (dfsVisit adj fuel nb acc.1).2)

/-- The per-id step of the `componentsFold` loop, named for the proofs. -/
def compStep (adj : String → List String) (fuel : ℕ) :
    Finset String × List (List String) → String → Finset String × List (List String) :=
  fun acc id =>
    if id ∈ acc.1 then acc
    else ((dfsVisit adj fuel id acc.1).1, acc.2 ++ [(dfsVisit adj fuel id acc.1).2])

end AstraNode.GraphBuilder

namespace AstraNode.GraphRAG
open AstraNode.GraphBuilder

/-- A paper decorated with a search relevance score, as produced by the
search and expansion steps of `graphRAG.js` (`{...paper, relevanceScore}`,
optionally `connectionReason`). -/
structure SPaper extends AstraNode.Paper where
  relevanceScore : ℚ
  connectionReason : Option String := none
  deriving DecidableEq

/-- The searchable text of a paper in `keywordBasedSearch`:
`` `${title} ${concepts.join(' ') || ''} ${domain || ''}`.toLowerCase() ``. -/
def paperText (p : AstraNode.Paper) : String :=
  (p.title ++ " " ++ String.intercalate " " p.concepts ++ " " ++ p.domain.getD "").toLower

/-- The query terms of `keywordBasedSearch`:
`query.toLowerCase().split(/\s+/).filter(term => term.length > 2)`. -/
def queryTerms (query : String) : List String :=
  (AstraNode.jsSplitWs query.toLower).filter (fun t => 2 < t.length)

/-- The behaviour of the host regex facility on one query term:
`new RegExp(term, 'g')` followed by `paperText.match(...)`.  Compiling a
term that is not a valid ECMAScript pattern throws a `SyntaxError`,
modelled as `Except.error ()`; a valid pattern yields its per-text global
match counter, `text ↦ (text.match(re) || []).length`.
`keywordBasedSearch` builds its patterns from the raw lower-cased query
terms, so regex behaviour is a parameter of the engine model; every
conforming behaviour agrees with `literalRegexCount` on terms free of
the pattern metacharacters (see `regexMetaFree`). -/
def RegexBehavior : Type := String → Except Unit (String → ℕ)

/-- Absence of the ECMAScript pattern metacharacters: a term satisfying
this is a valid pattern whose matches are exactly its literal
occurrences.  (A term outside this class may still be valid — `a.b` —
but can match differently, or fail to compile at all — `c++`.) -/
def regexMetaFree (t : String) : Bool :=
  t.data.all (fun c =>
    c ∉ ['\\', '^', '$', '.', '*', '+', '?', '(', ')', '[', ']', '\x7b', '\x7d', '|'])

/-- The regex behaviour on metacharacter-free terms: such a term
compiles, and its global matches are its non-overlapping literal
occurrences (`countOccs`).  Concrete evaluations below instantiate the
behaviour parameter with this function only at queries all of whose
terms satisfy `regexMetaFree`, where it coincides with the host. -/
def literalRegexCount : RegexBehavior :=
  fun term => Except.ok (fun text => AstraNode.countOccs term text)

/-- The per-paper score loop of `keywordBasedSearch`: for each query term
in order, `new RegExp(term, 'g')` is matched against the paper text
(`score += exactMatches * 2`), then `paperText.includes(term)` adds `1`,
then a concept containing the term adds `3` (both literal `includes`).
A term the regex facility rejects throws out of the loop. -/
def keywordScore (re : RegexBehavior) (terms : List String) (p : AstraNode.Paper) :
    Except Unit ℕ :=
  terms.foldlM
    (fun score term => do
      let matchCount ← re term
      pure (score + 2 * matchCount (paperText p) +
        (if AstraNode.jsIncludes (paperText p) term then 1 else 0) +
        (if p.concepts.any (fun c => AstraNode.jsIncludes c.toLower term) then 3 else 0)))
    0

/-- `keywordBasedSearch` of `graphRAG.js`: score each paper in order (a
scoring throw — an invalid regex pattern among the query terms — escapes
while the first paper is scored; with an empty store no pattern is ever
compiled), keep papers with positive score, sort by score descending,
truncate to `maxResults`. -/
def keywordBasedSearch (re : RegexBehavior) (papers : List AstraNode.Paper)
    (query : String) (maxResults : ℕ) : Except Unit (List SPaper) := do
  let paperScores ← papers.foldlM
    (fun acc p => do
      let score ← keywordScore re (queryTerms query) p
      pure (if 0 < score then
          acc ++ [{ toPaper := p, relevanceScore := (score : ℚ) }]
        else acc))
    ([] : List SPaper)
  pure ((AstraNode.sortByKeyDesc (fun sp => sp.relevanceScore) paperScores).take maxResults)

/-- One candidate's round of `expandWithGraphContext`: walk the incident
links in order; a neighbour not yet collected, over strength `0.6` and
present in the paper store is appended with score
`(source's relevanceScore) × strength` and a connection reason; its id is
recorded.  The JS mutates the candidate array in place
(`papers.push(...)`), modelled by threading the grown list. -/
def expandStep (allPapers : List AstraNode.Paper) (g : Graph) :
    List SPaper × Finset String → SPaper → List SPaper × Finset String :=
  fun st paper =>
    (g.links.filter (fun l => l.source = paper.id ∨ l.target = paper.id)).foldl
      (fun st l =>
        if (if l.source = paper.id then l.target else l.source) ∉ st.2 ∧
            (0.6 : ℚ) < l.strength then
          match allPapers.find?
              (fun p => p.id = (if l.source = paper.id then l.target else l.source)) with
          | some connectedPaper =>
            (st.1 ++
              [{ toPaper := connectedPaper
                 relevanceScore := ((st.1.find? (fun q => q.id = paper.id)).map (fun q => q.relevanceScore)).getD 0 * l.strength
                 connectionReason := some ("Connected to \"" ++ paper.title ++ "\" (" ++ toString ((round (l.strength * (100 : ℚ)) : ℤ)) ++ "% similarity)") }],
              insert (if l.source = paper.id then l.target else l.source) st.2)
          | none => st
        else st)
      st

/-- `expandWithGraphContext` of `graphRAG.js`: `null` graph data returns
the candidates unchanged; otherwise each original candidate (JS `forEach`
does not visit elements pushed during the loop) contributes its strong
unseen neighbours, and the grown list is re-sorted by relevance
descending. -/
def expandWithGraphContext (allPapers : List AstraNode.Paper)
    (graphData : Option Graph) (candidates : List SPaper) : List SPaper :=
  match graphData with
  | none => candidates
  | some g =>
    AstraNode.sortByKeyDesc (fun p => p.relevanceScore)
      (candidates.foldl (expandStep allPapers g)
        (candidates, (candidates.map (fun p => p.id)).toFinset)).1

/-- `extractThemes`: concept frequencies over the result set (map keys in
first-occurrence order), stable-sorted by count descending, top `8`. -/
def extractThemes (papers : List SPaper) : List String :=
  ((AstraNode.sortByKeyDesc
    (fun c => ((papers.map (fun p => p.concepts)).flatten).count c)
    (AstraNode.firstDedup ((papers.map (fun p => p.concepts)).flatten))).take 8)

/-- `analyzeDomainDistribution`: per-domain counts (`'Unknown'` default),
sorted by count descending. -/
def analyzeDomainDistribution (papers : List SPaper) : List (String × ℕ) :=
  (AstraNode.sortByKeyDesc
      (fun d => (papers.map (fun p => p.domain.getD "Unknown")).count d)
      (AstraNode.firstDedup (papers.map (fun p => p.domain.getD "Unknown")))).map
    (fun d => (d, (papers.map (fun p => p.domain.getD "Unknown")).count d))

/-- The insight record of `graphRAG.js` (`generateInsights` /
`generateBasicInsights`). -/
structure Insights where
  aiGenerated : Bool
  content : String
  themes : List String
  domains : List (String × ℕ)
  deriving DecidableEq

/-- `generateBasicInsights` of `graphRAG.js`: the local fallback
synthesis.  `avgConnections` is a JS division that is `NaN` for an empty
result set (`none` here), in which case neither threshold comparison
fires. -/
def generateBasicInsights (_query : String) (papers : List SPaper) : Insights :=
  let themes := extractThemes papers
  let domains := analyzeDomainDistribution papers
  let insights :=
    (if 1 < domains.length then
      ["This query spans multiple research domains: " ++
        String.intercalate ", " ((domains.take 3).map (fun d => d.1))]
    else []) ++
    (if 0 < themes.length then
      ["Key research themes include: " ++ String.intercalate ", " (themes.take 5)]
    else []) ++
    (match AstraNode.jsDivQ
        ((papers.map (fun p => ((p.degree.getD 0 : ℕ) : ℚ))).sum) (papers.length : ℚ) with
    | some avg =>
      if 5 < avg then
        ["These papers are highly interconnected, suggesting a mature research area"]
      else if avg < 2 then
        ["These papers have few connections, suggesting emerging or niche research areas"]
      else []
    | none => [])
  { aiGenerated := false
    content := String.intercalate ". " insights ++ "."
    themes := themes
    domains := domains }

/-- A link of the result-set subgraph with the endpoint papers attached
(`findRelevantConnections`). -/
structure RLink extends Link where
  sourcePaper : Option SPaper
  targetPaper : Option SPaper
  deriving DecidableEq

/-- `findRelevantConnections`: links with both endpoints in the result
set, endpoint papers attached, sorted by strength descending, top `10`. -/
def findRelevantConnections (graphData : Option Graph) (papers : List SPaper) :
    List RLink :=
  match graphData with
  | none => []
  | some g =>
    (AstraNode.sortByKeyDesc (fun rl => rl.strength)
      ((g.links.filter (fun l =>
          l.source ∈ (papers.map (fun p => p.id)).toFinset ∧
          l.target ∈ (papers.map (fun p => p.id)).toFinset)).map
        (fun l =>
          { toLink := l
            sourcePaper := papers.find? (fun p => p.id = l.source)
            targetPaper := papers.find? (fun p => p.id = l.target) }))).take 10

/-- The statistics of the subgraph context (`getGraphContext`).  `density`
is `relevantLinks.length / (n * (n - 1) / 2)`, a JS division returning a
non-finite value (`NaN`, or `+Infinity` with a self-loop) when the
denominator is `0`, that is when `n ≤ 1` — modelled as `none`. -/
structure CtxStats where
  nodeCount : ℕ
  linkCount : ℕ
  density : Option ℚ
  deriving DecidableEq

/-- The subgraph context returned by `getGraphContext`. -/
structure GraphContext where
  nodes : List GNode
  links : List Link
  stats : CtxStats
  deriving DecidableEq

/-- `getGraphContext` of `graphRAG.js` on non-null graph data: nodes and
links restricted to the result set's ids, plus statistics. -/
def getGraphContext (g : Graph) (papers : List SPaper) : GraphContext :=
  { nodes := g.nodes.filter (fun n => n.id ∈ (papers.map (fun p => p.id)).toFinset)
    links := g.links.filter (fun l =>
      l.source ∈ (papers.map (fun p => p.id)).toFinset ∧
      l.target ∈ (papers.map (fun p => p.id)).toFinset)
    stats :=
      { nodeCount := (g.nodes.filter
          (fun n => n.id ∈ (papers.map (fun p => p.id)).toFinset)).length
        linkCount := (g.links.filter (fun l =>
          l.source ∈ (papers.map (fun p => p.id)).toFinset ∧
          l.target ∈ (papers.map (fun p => p.id)).toFinset)).length
        density := AstraNode.jsDivQ
          ((g.links.filter (fun l =>
            l.source ∈ (papers.map (fun p => p.id)).toFinset ∧
            l.target ∈ (papers.map (fun p => p.id)).toFinset)).length : ℚ)
          (((g.nodes.filter
              (fun n => n.id ∈ (papers.map (fun p => p.id)).toFinset)).length : ℚ) *
            (((g.nodes.filter
              (fun n => n.id ∈ (papers.map (fun p => p.id)).toFinset)).length : ℚ) - 1) /
            2) } }

/-- One entry of a research path (`{paperId, connection, paper}`); the
start entry carries no connection. -/
structure PEntry where
  paperId : String
  connection : Option Link := none
  paper : Option AstraNode.Paper := none
  deriving DecidableEq

/-- The recursive `dfs` of `findResearchPaths`: depth-first search with a
branch-scoped visited set (the JS adds `currentId` on entry and deletes it
on exit, so each completed recursive call leaves `visited` unchanged and
all sibling branches see `visited ∪ {currentId}`, which is passed here
directly).  A path is accepted when it reaches the target with more than
one entry; the hop guard `hops > maxHops` is the fuel reaching `0`. -/
def dfsP (links : List Link) (papers : List AstraNode.Paper) (targetId : String) :
    ℕ → String → List PEntry → Finset String → List (List PEntry)
  | 0, _, _, _ => []
  | fuel + 1, cur, path, vis =>
    if cur = targetId ∧ 1 < path.length then [path]
    else
      ((links.filter (fun l => l.source = cur ∨ l.target = cur)).map (fun l =>
        if (if l.source = cur then l.target else l.source) ∈ insert cur vis then []
        else
          dfsP links papers targetId fuel (if l.source = cur then l.target else l.source)
            (path ++
              [{ paperId := (if l.source = cur then l.target else l.source)
                 connection := some l
                 paper := papers.find? (fun p => p.id = (if l.source = cur then l.target else l.source)) }])
            (insert cur vis))).flatten

/-- The ranking key of `findResearchPaths`: the sum of the traversed edge
strengths (`node.connection?.strength || 0`). -/
def pathStrength (p : List PEntry) : ℚ :=
  (p.map (fun e => (e.connection.map (fun l => l.strength)).getD 0)).sum

/-- `findResearchPaths` of `graphRAG.js`: empty without graph data;
otherwise all accepted DFS paths from the start entry, ranked by total
strength descending, top `5`. -/
def findResearchPaths (graphData : Option Graph) (papers : List AstraNode.Paper)
    (startPaperId endPaperId : String) (maxHops : ℕ) : List (List PEntry) :=
  match graphData with
  | none => []
  | some g =>
    (AstraNode.sortByKeyDesc pathStrength
      (dfsP g.links papers endPaperId (maxHops + 1) startPaperId
        [{ paperId := startPaperId }] ∅)).take 5

/-- The result metadata of `queryGraph` / `fallbackQuery`; absent JS
fields are `none` / `false`. -/
structure Metadata where
  totalRelevant : ℕ
  semanticMatches : Option ℕ := none
  graphExpanded : Option ℕ := none
  fallbackMode : Bool := false
  deriving DecidableEq

/-- The result record of `queryGraph`. -/
structure QueryResult where
  query : String
  results : List SPaper
  insights : Insights
  connections : List RLink
  graphContext : Option GraphContext
  metadata : Metadata
  deriving DecidableEq

/-- `fallbackQuery` of `graphRAG.js`: keyword search plus local insight
synthesis, flagged with `fallbackMode: true`.  The keyword search runs
with no `try/catch` of its own, so a term the regex facility rejects
throws out of `fallbackQuery` itself. -/
def fallbackQuery (re : RegexBehavior) (papers : List AstraNode.Paper) (query : String)
    (maxResults : ℕ) : Except Unit QueryResult := do
  let results ← keywordBasedSearch re papers query maxResults
  pure
    { query := query
      results := results
      insights := generateBasicInsights query results
      connections := []
      graphContext := none
      metadata :=
        { totalRelevant := results.length
          fallbackMode := true } }

/-- `queryGraph` of `graphRAG.js`, with the two awaited provider-backed
steps abstracted as outcomes: `searchStep` is what `semanticSearch`
returns (or the error it throws), `insightStep` what `generateInsights`
returns on the expanded results.  Any step error is caught by the
outer `try/catch` and answered by `fallbackQuery` — but the `catch`
handler itself runs `fallbackQuery` unguarded, so a regex `SyntaxError`
thrown by the fallback's own keyword search (an invalid pattern among
the query terms) propagates to the caller: the whole model is
`Except`-valued.

Metadata note: in the JS, `expandWithGraphContext(relevantPapers, query)`
pushes into its argument array and `Array.prototype.sort` returns that
same array, so `expandedResults` and `relevantPapers` alias one object;
`metadata.semanticMatches` therefore reads the post-expansion length and
`metadata.graphExpanded = expandedResults.length - relevantPapers.length`
is always `0`.  (With `useGraphStructure` false, or null graph data, the
two references are equal trivially.)  The model states those field values
directly. -/
def queryGraphModel (re : RegexBehavior) (papers : List AstraNode.Paper)
    (graphData : Option Graph)
    (query : String) (maxResults : ℕ) (includeConnections useGraphStructure : Bool)
    (searchStep : Except Unit (List SPaper))
    (insightStep : List SPaper → Except Unit Insights) : Except Unit QueryResult :=
  match searchStep with
  | Except.error _ => fallbackQuery re papers query maxResults
  | Except.ok relevantPapers =>
    match insightStep (if useGraphStructure then
        expandWithGraphContext papers graphData relevantPapers
      else relevantPapers) with
    | Except.error _ => fallbackQuery re papers query maxResults
    | Except.ok insights => Except.ok
      { query := query
        results := (if useGraphStructure then
            expandWithGraphContext papers graphData relevantPapers
          else relevantPapers).take maxResults
        insights := insights
        connections := if includeConnections then
            findRelevantConnections graphData (if useGraphStructure then
              expandWithGraphContext papers graphData relevantPapers
            else relevantPapers)
          else []
        graphContext := graphData.map (fun g => getGraphContext g
          (if useGraphStructure then expandWithGraphContext papers graphData relevantPapers
          else relevantPapers))
        metadata :=
          { totalRelevant := (if useGraphStructure then
                expandWithGraphContext papers graphData relevantPapers
              else relevantPapers).length
            semanticMatches := some (if useGraphStructure then
                expandWithGraphContext papers graphData relevantPapers
              else relevantPapers).length
            graphExpanded := some ((if useGraphStructure then
                expandWithGraphContext papers graphData relevantPapers
              else relevantPapers).length -
              (if useGraphStructure then
                expandWithGraphContext papers graphData relevantPapers
              else relevantPapers).length) } }

/-- The paper store of the C10 failing input: `p1` matches the query
`alpha`, `p2` does not. -/
def c10Papers : List AstraNode.Paper :=
  [{ id := "p1", title := "alpha study", concepts := ["alpha"] },
   { id := "p2", title := "beta study", concepts := ["beta"] }]

/-- The graph of the C10 failing input: one link `p1`–`p2` of strength
`1` (above the `0.6` expansion threshold). -/
def c10Graph : Graph :=
  { nodes := ([] : List GNode)
    links := [{ source := "p1", target := "p2", strength := 1, sharedConcepts := [], type := "strong" }]
    stats := { totalNodes := 0, totalLinks := 0, averageDegree := none, clusters := 0 } }

/-- The direct search result of the C10 failing input: the search step
found exactly the matching paper `p1` (with keyword score `8`, the value
`keywordBasedSearch c10Papers \"alpha\" 20` computes for this store). -/
def c10Search : List SPaper :=
  [{ toPaper := { id := "p1", title := "alpha study", concepts := ["alpha"] }
     relevanceScore := 8 }]

/-- A regex behaviour agreeing with the host on the query term `c++`:
`new RegExp("c++", 'g')` throws `SyntaxError: nothing to repeat` (the
second `+` quantifies no atom), so compilation errs there; on other
terms it counts literal occurrences (only `c++` is ever compiled in the
evaluation using it). -/
def cppRegex : RegexBehavior :=
  fun term =>
    if term = "c++" then Except.error ()
    else Except.ok (fun text => AstraNode.countOccs term text)

end AstraNode.GraphRAG

namespace AstraNode

theorem mem_firstDedup_aux {α : Type} [DecidableEq α] (l : List α) (acc : List α) (x : α) :
    x ∈ l.foldl (fun acc x => if x ∈ acc then acc else acc ++ [x]) acc ↔ x ∈ acc ∨ x ∈ l := by
  induction l generalizing acc with
  | nil => simp
  | cons y ys ih =>
    simp only [List.foldl_cons]
    by_cases h : y ∈ acc
    · rw [if_pos h, ih]
      constructor
      · rintro (hx | hx)
        · exact Or.inl hx
        · exact Or.inr (List.mem_cons_of_mem _ hx)
      · rintro (hx | hx)
        · exact Or.inl hx
        · rcases List.mem_cons.mp hx with h1 | h1
          · exact Or.inl (h1 ▸ h)
          · exact Or.inr h1
    · rw [if_neg h, ih]
      simp only [List.mem_append, List.mem_cons, List.mem_singleton]
      tauto

theorem mem_firstDedup {α : Type} [DecidableEq α] (l : List α) (x : α) :
    x ∈ firstDedup l ↔ x ∈ l := by
  unfold firstDedup
  rw [mem_firstDedup_aux]
  simp

theorem perm_insDesc {α β : Type} [LinearOrder β] (key : α → β) (x : α) (l : List α) :
    List.Perm (insDesc key x l) (x :: l) := by
  induction l with
  | nil => rfl
  | cons y ys ih =>
    unfold insDesc
    by_cases h : key x < key y
    · simp only [h, if_true]
      exact (ih.cons y).trans (List.Perm.swap x y ys)
    · simp [h]

theorem perm_sortByKeyDesc {α β : Type} [LinearOrder β] (key : α → β) (l : List α) :
    List.Perm (sortByKeyDesc key l) l := by
  induction l with
  | nil => rfl
  | cons x xs ih =>
    unfold sortByKeyDesc
    exact (perm_insDesc key x (sortByKeyDesc key xs)).trans (ih.cons x)

theorem mem_sortByKeyDesc {α β : Type} [LinearOrder β] (key : α → β) (l : List α) (x : α) :
    x ∈ sortByKeyDesc key l ↔ x ∈ l :=
  (perm_sortByKeyDesc key l).mem_iff

theorem normAcc_eq_self (t1 t2 : List String) :
    PaperAnalyzer.normAcc t1 t2 =
      ∑ k ∈ t1.toFinset, (t1.count k : ℚ) * (t1.count k : ℚ) := by
  unfold PaperAnalyzer.normAcc
  refine (Finset.sum_subset Finset.subset_union_left ?_).symm
  intro k _ hk
  have : t1.count k = 0 := List.count_eq_zero.mpr (fun hmem => hk (List.mem_toFinset.mpr hmem))
  simp [this]

theorem dotProd_comm (t1 t2 : List String) :
    PaperAnalyzer.dotProd t1 t2 = PaperAnalyzer.dotProd t2 t1 := by
  unfold PaperAnalyzer.dotProd
  rw [Finset.union_comm]
  exact Finset.sum_congr rfl (fun k _ => mul_comm _ _)

theorem cosineSimilarity_comm (t1 t2 : List String) :
    PaperAnalyzer.cosineSimilarity t1 t2 = PaperAnalyzer.cosineSimilarity t2 t1 := by
  unfold PaperAnalyzer.cosineSimilarity
  rw [dotProd_comm t1 t2, normAcc_eq_self t1 t2, normAcc_eq_self t2 t1]
  by_cases h1 : (∑ k ∈ t1.toFinset, (t1.count k : ℚ) * (t1.count k : ℚ)) = 0 <;>
    by_cases h2 : (∑ k ∈ t2.toFinset, (t2.count k : ℚ) * (t2.count k : ℚ)) = 0 <;>
    simp [h1, h2, mul_comm]

theorem paDomainBonus_comm (p q : Paper) :
    PaperAnalyzer.domainBonus p q = PaperAnalyzer.domainBonus q p := by
  unfold PaperAnalyzer.domainBonus
  rcases eq_or_ne p.domain q.domain with h | h
  · rw [if_pos h, if_pos h.symm]
  · rw [if_neg h, if_neg (Ne.symm h)]

theorem paTitleSim_comm (p q : Paper) :
    PaperAnalyzer.titleSim p q = PaperAnalyzer.titleSim q p := by
  unfold PaperAnalyzer.titleSim
  rw [cosineSimilarity_comm]

theorem demoDomainBonus_comm (p q : Paper) :
    DemoAnalyzer.domainBonus p q = DemoAnalyzer.domainBonus q p := by
  unfold DemoAnalyzer.domainBonus
  rcases eq_or_ne p.domain q.domain with h | h
  · rw [if_pos h, if_pos h.symm]
  · rw [if_neg h, if_neg (Ne.symm h)]

theorem demoTitleSim_comm (p q : Paper) :
    DemoAnalyzer.titleSim p q = DemoAnalyzer.titleSim q p := by
  unfold DemoAnalyzer.titleSim
  rw [Finset.inter_comm, max_comm]

/-- C1: the similarity function is symmetric in both engine variants: for
all papers `p` and `q`, `calculateSimilarity p q = calculateSimilarity q p`,
both for the OpenAI-backed analyzer of `src/utils/paperAnalyzer.js`
(Jaccard over lower-cased concept sets, case-sensitive domain-equality
bonus of `0.2`, cosine title component scaled by `0.3`) and for the demo
analyzer of `src/unnamed/part_000` (domain bonus `0.3`, normalized
title-token overlap scaled by `0.2`, clamped at `1.0`). -/
theorem similarity_symmetric (p q : Paper) :
    PaperAnalyzer.calculateSimilarity p q = PaperAnalyzer.calculateSimilarity q p ∧
    DemoAnalyzer.calculateSimilarity p q = DemoAnalyzer.calculateSimilarity q p := by
  constructor
  · unfold PaperAnalyzer.calculateSimilarity
    rw [Finset.inter_comm, Finset.union_comm, paDomainBonus_comm p q, paTitleSim_comm p q]
  · unfold DemoAnalyzer.calculateSimilarity
    rw [Finset.inter_comm, Finset.union_comm, demoDomainBonus_comm p q,
      demoTitleSim_comm p q]

theorem bothEmptyConcepts_nan_aux (p q : Paper)
    (hp : p.concepts = []) (hq : q.concepts = []) :
    PaperAnalyzer.calculateSimilarity p q = none ∧
    DemoAnalyzer.calculateSimilarity p q = none := by
  have hcup : (conceptSet p ∪ conceptSet q).card = 0 := by
    simp [conceptSet, hp, hq]
  constructor
  · unfold PaperAnalyzer.calculateSimilarity
    rw [hcup]
    simp [jsDivNat]
  · unfold DemoAnalyzer.calculateSimilarity
    rw [hcup]
    simp [jsDivNat]

/-- C2 (amended): when both papers' concept lists are empty the Jaccard
division in `calculateSimilarity` is the JavaScript `0/0 = NaN`, so the
whole similarity is `NaN` (`none` in this model) — not the domain bonus
plus the title component — in both engine variants; a `NaN` similarity then
fails every `similarity > threshold` test, so such a pair never yields a
connection. -/
theorem similarity_bothEmptyConcepts_nan (p q : Paper)
    (hp : p.concepts = []) (hq : q.concepts = []) :
    PaperAnalyzer.calculateSimilarity p q = none ∧
    DemoAnalyzer.calculateSimilarity p q = none :=
  bothEmptyConcepts_nan_aux p q hp hq

theorem similarity_bothEmptyConcepts_nan_witness :
    (({ id := "p1", title := "alpha beta", domain := some ("X") } : Paper).concepts = [] ∧
      ({ id := "p2", title := "alpha gamma", domain := some ("X") } : Paper).concepts = []) ∧
    (PaperAnalyzer.calculateSimilarity
        { id := "p1", title := "alpha beta", domain := some ("X") }
        { id := "p2", title := "alpha gamma", domain := some ("X") } = none ∧
      DemoAnalyzer.calculateSimilarity
        { id := "p1", title := "alpha beta", domain := some ("X") }
        { id := "p2", title := "alpha gamma", domain := some ("X") } = none) :=
  ⟨⟨rfl, rfl⟩,
    similarity_bothEmptyConcepts_nan
      { id := "p1", title := "alpha beta", domain := some ("X") }
      { id := "p2", title := "alpha gamma", domain := some ("X") } rfl rfl⟩

/-- C2 (counterexample): for two concept-less papers in the same domain the
claim asserts a similarity of domain bonus plus title component (with a
Jaccard term of `0`); the code instead produces `NaN` (`none`), in both
variants, so the asserted equation fails at this input. -/
theorem similarity_bothEmptyConcepts_cex :
    PaperAnalyzer.calculateSimilarity
        { id := "a", title := "same title", domain := some ("D") }
        { id := "b", title := "same title", domain := some ("D") } ≠
      some ((0 : ℝ) +
        (PaperAnalyzer.domainBonus
          { id := "a", title := "same title", domain := some ("D") }
          { id := "b", title := "same title", domain := some ("D") } : ℚ) +
        PaperAnalyzer.titleSim
          { id := "a", title := "same title", domain := some ("D") }
          { id := "b", title := "same title", domain := some ("D") }) ∧
    DemoAnalyzer.calculateSimilarity
        { id := "a", title := "same title", domain := some ("D") }
        { id := "b", title := "same title", domain := some ("D") } ≠
      some (min 1 ((0 : ℚ) +
        DemoAnalyzer.domainBonus
          { id := "a", title := "same title", domain := some ("D") }
          { id := "b", title := "same title", domain := some ("D") } +
        DemoAnalyzer.titleSim
          { id := "a", title := "same title", domain := some ("D") }
          { id := "b", title := "same title", domain := some ("D") })) := by
  have h := bothEmptyConcepts_nan_aux
    { id := "a", title := "same title", domain := some ("D") }
    { id := "b", title := "same title", domain := some ("D") } rfl rfl
  constructor
  · rw [h.1]; exact fun hc => Option.noConfusion hc
  · rw [h.2]; exact fun hc => Option.noConfusion hc

theorem pairsAfter_mem_cons {α : Type} (x : α) (xs : List α) (a b : α) :
    (a, b) ∈ PaperAnalyzer.pairsAfter (x :: xs) ↔
      (a = x ∧ b ∈ xs) ∨ (a, b) ∈ PaperAnalyzer.pairsAfter xs := by
  have hdef : PaperAnalyzer.pairsAfter (x :: xs) =
      xs.map (fun y => (x, y)) ++ PaperAnalyzer.pairsAfter xs := rfl
  rw [hdef]
  simp only [List.mem_append, List.mem_map, Prod.mk.injEq]
  constructor
  · rintro (⟨y, hy, hxy, hyb⟩ | hmem)
    · exact Or.inl ⟨hxy.symm, hyb ▸ hy⟩
    · exact Or.inr hmem
  · rintro (⟨hax, hb⟩ | hmem)
    · exact Or.inl ⟨b, hb, hax.symm, rfl⟩
    · exact Or.inr hmem

theorem pairsAfter_mem_mem {α : Type} (l : List α) (a b : α)
    (h : (a, b) ∈ PaperAnalyzer.pairsAfter l) : a ∈ l ∧ b ∈ l := by
  induction l with
  | nil => simp [PaperAnalyzer.pairsAfter] at h
  | cons x xs ih =>
    rcases (pairsAfter_mem_cons x xs a b).mp h with ⟨hax, hb⟩ | hmem
    · exact ⟨hax ▸ List.mem_cons_self x xs, List.mem_cons_of_mem x hb⟩
    · exact ⟨List.mem_cons_of_mem x (ih hmem).1, List.mem_cons_of_mem x (ih hmem).2⟩

theorem pairsAfter_f_ne {α β : Type} (f : α → β) (l : List α)
    (h : (l.map f).Nodup) :
    ∀ pq ∈ PaperAnalyzer.pairsAfter l, f pq.1 ≠ f pq.2 := by
  induction l with
  | nil => intro pq hpq; simp [PaperAnalyzer.pairsAfter] at hpq
  | cons x xs ih =>
    intro pq hpq
    rw [List.map_cons, List.nodup_cons] at h
    rcases (pairsAfter_mem_cons x xs pq.1 pq.2).mp hpq with ⟨hax, hb⟩ | hmem
    · intro hfeq
      exact h.1 (hax ▸ hfeq ▸ List.mem_map_of_mem f hb)
    · exact ih h.2 pq hmem

theorem pairsAfter_pairSets_nodup {α β : Type} [DecidableEq β] (f : α → β)
    (l : List α) (h : (l.map f).Nodup) :
    ((PaperAnalyzer.pairsAfter l).map
      (fun pq => ({f pq.1, f pq.2} : Finset β))).Nodup := by
  induction l with
  | nil => simp [PaperAnalyzer.pairsAfter]
  | cons x xs ih =>
    rw [List.map_cons, List.nodup_cons] at h
    unfold PaperAnalyzer.pairsAfter
    rw [List.map_append, List.nodup_append, List.map_map]
    refine ⟨?_, ih h.2, ?_⟩
    · refine List.Nodup.map_on ?_ (List.Nodup.of_map f h.2)
      intro y1 hy1 y2 hy2 heq
      simp only [Function.comp_apply] at heq
      have hy1x : f y1 ≠ f x := fun hc => h.1 (hc ▸ List.mem_map_of_mem f hy1)
      have : f y1 ∈ ({f x, f y2} : Finset β) := by
        rw [← heq]; exact Finset.mem_insert_of_mem (Finset.mem_singleton_self _)
      rcases Finset.mem_insert.mp this with hc | hc
      · exact absurd hc hy1x
      · exact List.inj_on_of_nodup_map h.2 hy1 hy2 (Finset.mem_singleton.mp hc)
    · intro s hs1 hs2
      simp only [List.mem_map, Function.comp_apply] at hs1
      obtain ⟨y, hy, hsy⟩ := hs1
      simp only [List.mem_map] at hs2
      obtain ⟨pq, hpq, hspq⟩ := hs2
      have hmem := pairsAfter_mem_mem xs pq.1 pq.2 hpq
      have hfx : f x ∈ ({f pq.1, f pq.2} : Finset β) := by
        rw [hspq, ← hsy]
        exact Finset.mem_insert_self _ _
      rcases Finset.mem_insert.mp hfx with hc | hc
      · exact h.1 (hc ▸ List.mem_map_of_mem f hmem.1)
      · exact h.1 ((Finset.mem_singleton.mp hc) ▸ List.mem_map_of_mem f hmem.2)

theorem connectionPipeline_invariants {C β : Type} [LinearOrder β]
    (papers : List Paper) (h : (papers.map Paper.id).Nodup)
    (keep : Paper × Paper → Bool) (mk : Paper × Paper → C)
    (src tgt : C → String) (key : C → β) (n : ℕ)
    (hsrc : ∀ pq, src (mk pq) = pq.1.id) (htgt : ∀ pq, tgt (mk pq) = pq.2.id) :
    (∀ c ∈ (sortByKeyDesc key (((PaperAnalyzer.pairsAfter papers).filter keep).map mk)).take n,
        src c ≠ tgt c) ∧
    (((sortByKeyDesc key
        (((PaperAnalyzer.pairsAfter papers).filter keep).map mk)).take n).map
      (fun c => ({src c, tgt c} : Finset String))).Nodup := by
  have hfilter : ((PaperAnalyzer.pairsAfter papers).filter keep).Sublist
      (PaperAnalyzer.pairsAfter papers) := List.filter_sublist _
  constructor
  · intro c hc
    have hc1 : c ∈ sortByKeyDesc key
        (((PaperAnalyzer.pairsAfter papers).filter keep).map mk) :=
      (List.take_sublist n _).subset hc
    have hc2 : c ∈ ((PaperAnalyzer.pairsAfter papers).filter keep).map mk :=
      (mem_sortByKeyDesc key _ c).mp hc1
    obtain ⟨pq, hpq, hmk⟩ := List.mem_map.mp hc2
    have hne := pairsAfter_f_ne Paper.id papers h pq (hfilter.subset hpq)
    rw [← hmk, hsrc, htgt]
    exact hne
  · have hbase : (((PaperAnalyzer.pairsAfter papers).filter keep).map
        (fun pq => ({pq.1.id, pq.2.id} : Finset String))).Nodup :=
      (hfilter.map _).nodup (pairsAfter_pairSets_nodup Paper.id papers h)
    have hmapped : (((PaperAnalyzer.pairsAfter papers).filter keep).map mk).map
        (fun c => ({src c, tgt c} : Finset String)) =
        ((PaperAnalyzer.pairsAfter papers).filter keep).map
          (fun pq => ({pq.1.id, pq.2.id} : Finset String)) := by
      rw [List.map_map]
      exact List.map_congr_left (fun pq _ => by simp [Function.comp, hsrc, htgt])
    have hperm : List.Perm
        ((sortByKeyDesc key
          (((PaperAnalyzer.pairsAfter papers).filter keep).map mk)).map
            (fun c => ({src c, tgt c} : Finset String)))
        ((((PaperAnalyzer.pairsAfter papers).filter keep).map mk).map
          (fun c => ({src c, tgt c} : Finset String))) :=
      (perm_sortByKeyDesc key _).map _
    have hsortNodup : ((sortByKeyDesc key
        (((PaperAnalyzer.pairsAfter papers).filter keep).map mk)).map
          (fun c => ({src c, tgt c} : Finset String))).Nodup := by
      rw [hperm.nodup_iff, hmapped]
      exact hbase
    exact ((List.take_sublist n _).map _).nodup hsortNodup

/-- C7: for every list of papers with pairwise-distinct ids,
`findConnections` (in both the OpenAI-backed analyzer and the demo
analyzer) never emits a connection whose source equals its target, and
emits at most one connection per unordered pair of paper ids — pairs are
visited once with `i < j`, and threshold filtering, descending sort and
truncation preserve both invariants. -/
theorem findConnections_pair_invariants (papers : List Paper)
    (h : (papers.map Paper.id).Nodup) :
    (∀ c ∈ PaperAnalyzer.findConnections papers, c.source ≠ c.target) ∧
    ((PaperAnalyzer.findConnections papers).map
      (fun c => ({c.source, c.target} : Finset String))).Nodup ∧
    (∀ c ∈ DemoAnalyzer.findConnections papers, c.source ≠ c.target) ∧
    ((DemoAnalyzer.findConnections papers).map
      (fun c => ({c.source, c.target} : Finset String))).Nodup := by
  have h1 := connectionPipeline_invariants (C := RConnection) papers h
    (fun pq => decide (PaperAnalyzer.keepsPair pq.1 pq.2))
    (fun pq =>
      { source := pq.1.id
        target := pq.2.id
        strength := (PaperAnalyzer.calculateSimilarity pq.1 pq.2).getD 0
        sharedConcepts := getSharedConcepts pq.1 pq.2 })
    (fun c => c.source) (fun c => c.target) (fun c => c.strength) 500
    (fun _ => rfl) (fun _ => rfl)
  have h2 := connectionPipeline_invariants (C := Connection) papers h
    (fun pq => DemoAnalyzer.keepsPair pq.1 pq.2)
    (fun pq =>
      { source := pq.1.id
        target := pq.2.id
        strength := (DemoAnalyzer.calculateSimilarity pq.1 pq.2).getD 0
        sharedConcepts := getSharedConcepts pq.1 pq.2 })
    (fun c => c.source) (fun c => c.target) (fun c => c.strength) 300
    (fun _ => rfl) (fun _ => rfl)
  exact ⟨h1.1, h1.2, h2.1, h2.2⟩

theorem findConnections_pair_invariants_witness :
    (([{ id := "a", title := "t one", concepts := ["x"] },
       { id := "b", title := "t two", concepts := ["x"] }] :
        List Paper).map Paper.id).Nodup ∧
    (∀ c ∈ DemoAnalyzer.findConnections
        [{ id := "a", title := "t one", concepts := ["x"] },
         { id := "b", title := "t two", concepts := ["x"] }],
      c.source ≠ c.target) :=
  ⟨by decide,
    (findConnections_pair_invariants
      [{ id := "a", title := "t one", concepts := ["x"] },
       { id := "b", title := "t two", concepts := ["x"] }] (by decide)).2.2.1⟩

end AstraNode

namespace AstraNode.GraphBuilder

theorem bumpDeg_apply_eq (m : String → ℕ) (s id : String) :
    bumpDeg m s id = m id + (if s = id then 1 else 0) := by
  unfold bumpDeg
  by_cases h : id = s
  · rw [if_pos h, if_pos h.symm]
  · rw [if_neg h, if_neg (fun hc => h hc.symm), Nat.add_zero]

theorem degreeMap_fold_eq (links : List Link) (m0 : String → ℕ) (id : String) :
    (links.foldl (fun m l => bumpDeg (bumpDeg m l.source) l.target) m0) id =
      m0 id + links.countP (fun l => decide (l.source = id)) +
        links.countP (fun l => decide (l.target = id)) := by
  induction links generalizing m0 with
  | nil => simp
  | cons x xs ih =>
    rw [List.foldl_cons, ih, bumpDeg_apply_eq, bumpDeg_apply_eq]
    simp only [List.countP_cons, decide_eq_true_eq]
    by_cases hs : x.source = id <;> by_cases ht : x.target = id <;>
      simp [hs, ht] <;> omega

theorem degreeMap_eq_counts (links : List Link) (id : String) :
    degreeMap links id =
      links.countP (fun l => decide (l.source = id)) +
        links.countP (fun l => decide (l.target = id)) := by
  unfold degreeMap
  rw [degreeMap_fold_eq]
  omega

theorem incident_filter_length (links : List Link) (id : String)
    (h : ∀ l ∈ links, l.source ≠ l.target) :
    (links.filter (fun l => decide (l.source = id ∨ l.target = id))).length =
      links.countP (fun l => decide (l.source = id)) +
        links.countP (fun l => decide (l.target = id)) := by
  rw [← List.countP_eq_length_filter]
  simp only [Bool.decide_or]
  induction links with
  | nil => simp
  | cons x xs ih =>
    have hx := h x (List.mem_cons_self x xs)
    have hxs : ∀ l ∈ xs, l.source ≠ l.target :=
      fun l hl => h l (List.mem_cons_of_mem x hl)
    simp only [List.countP_cons, decide_eq_true_eq]
    by_cases hs : x.source = id <;> by_cases ht : x.target = id
    · exact absurd (hs.trans ht.symm) hx
    · simp [hs, ht, ih hxs]
      omega
    · simp [hs, ht, ih hxs]
      omega
    · simp [hs, ht, ih hxs]

theorem buildGraph_links_eq (papers : List AstraNode.Paper)
    (conns : List AstraNode.Connection) :
    (buildGraph papers conns).links = buildLinks conns := rfl

theorem buildGraph_node_degree (papers : List AstraNode.Paper)
    (conns : List AstraNode.Connection) :
    ∀ n ∈ (buildGraph papers conns).nodes,
      n.degree = degreeMap (buildLinks conns) n.id := by
  intro n hn
  simp only [buildGraph, performClustering, degreeNodes, initialNodes,
    List.mem_map] at hn
  obtain ⟨nc, ⟨n1, ⟨n0, ⟨p, _, rfl⟩, rfl⟩, rfl⟩, rfl⟩ := hn
  rfl

/-- C4: after `buildGraph` runs, every node's `degree` field equals the
number of links in the graph incident to that node, provided no connection
is a self-loop (the data model's edge invariant `source ≠ target`); the
degree pass increments both endpoints of every link. -/
theorem buildGraph_degree_eq_incident (papers : List AstraNode.Paper)
    (conns : List AstraNode.Connection)
    (h : ∀ c ∈ conns, c.source ≠ c.target) :
    ∀ n ∈ (buildGraph papers conns).nodes,
      n.degree = ((buildGraph papers conns).links.filter
        (fun l => decide (l.source = n.id ∨ l.target = n.id))).length := by
  intro n hn
  have hlinks : ∀ l ∈ buildLinks conns, l.source ≠ l.target := by
    intro l hl
    obtain ⟨c, hc, rfl⟩ := List.mem_map.mp hl
    exact h c hc
  rw [buildGraph_node_degree papers conns n hn, buildGraph_links_eq,
    degreeMap_eq_counts, incident_filter_length _ _ hlinks]

theorem buildGraph_degree_eq_incident_witness :
    (∀ c ∈ ([{ source := "a", target := "b", strength := 0.4, sharedConcepts := [] }] :
        List AstraNode.Connection), c.source ≠ c.target) ∧
    (∀ n ∈ (buildGraph [{ id := "a", title := "t1" }, { id := "b", title := "t2" }]
        [{ source := "a", target := "b", strength := 0.4, sharedConcepts := [] }]).nodes,
      n.degree = ((buildGraph [{ id := "a", title := "t1" }, { id := "b", title := "t2" }]
        [{ source := "a", target := "b", strength := 0.4, sharedConcepts := [] }]).links.filter
          (fun l => decide (l.source = n.id ∨ l.target = n.id))).length) :=
  ⟨by decide,
    buildGraph_degree_eq_incident
      [{ id := "a", title := "t1" }, { id := "b", title := "t2" }]
      [{ source := "a", target := "b", strength := 0.4, sharedConcepts := [] }]
      (by decide)⟩

theorem le_foldr_max (l : List ℕ) (a : ℕ) (ha : a ∈ l) : a ≤ l.foldr max 0 := by
  induction l with
  | nil => simp at ha
  | cons x xs ih =>
    rcases List.mem_cons.mp ha with rfl | hmem
    · exact le_max_left _ _
    · exact le_trans (ih hmem) (le_max_right _ _)

theorem foldr_max_mem (l : List ℕ) (hl : l ≠ []) : l.foldr max 0 ∈ l := by
  induction l with
  | nil => exact absurd rfl hl
  | cons x xs ih =>
    cases xs with
    | nil => simp
    | cons y ys =>
      rcases max_choice x ((y :: ys).foldr max 0) with h | h
      · rw [List.foldr_cons, h]
        exact List.mem_cons_self _ _
      · rw [List.foldr_cons, h]
        exact List.mem_cons_of_mem x (ih (by simp))

theorem centralityOf_spec (nodes : List GNode) (n : GNode) (hn : n ∈ nodes) :
    0 ≤ centralityOf nodes n ∧ centralityOf nodes n ≤ 1 ∧
    (maxDegree nodes = 0 → centralityOf nodes n = 0) ∧
    (0 < maxDegree nodes → n.degree = maxDegree nodes → centralityOf nodes n = 1) := by
  have hle : n.degree ≤ maxDegree nodes :=
    le_foldr_max _ _ (List.mem_map_of_mem (fun x => x.degree) hn)
  unfold centralityOf
  by_cases hpos : 0 < maxDegree nodes
  · have hcast : (0 : ℚ) < (maxDegree nodes : ℚ) := by exact_mod_cast hpos
    refine ⟨?_, ?_, ?_, ?_⟩
    · rw [if_pos hpos]
      exact div_nonneg (by positivity) (le_of_lt hcast)
    · rw [if_pos hpos]
      exact (div_le_one hcast).mpr (by exact_mod_cast hle)
    · intro h0; omega
    · intro _ hdeg
      rw [if_pos hpos, hdeg]
      exact div_self (ne_of_gt hcast)
  · refine ⟨?_, ?_, ?_, ?_⟩
    · rw [if_neg hpos]
    · rw [if_neg hpos]; norm_num
    · intro _; rw [if_neg hpos]
    · intro hc; exact absurd hc hpos

theorem maxDegree_map_centrality (nodes : List GNode) (f : GNode → ℚ) :
    maxDegree (nodes.map (fun n => { n with centrality := f n })) = maxDegree nodes := by
  unfold maxDegree
  rw [List.map_map]
  rfl

/-- C5: in every graph produced by `buildGraph`, each node's centrality is
in `[0,1]`; `maxDegree` is an upper bound of all node degrees and is
attained; a node whose degree equals a positive `maxDegree` has centrality
exactly `1`; and when `maxDegree` is `0` every node has centrality `0`
(normalized degree centrality `degree / maxDegree` with a zero guard). -/
theorem buildGraph_centrality_spec (papers : List AstraNode.Paper)
    (conns : List AstraNode.Connection) :
    ∀ n ∈ (buildGraph papers conns).nodes,
      0 ≤ n.centrality ∧ n.centrality ≤ 1 ∧
      (∀ m ∈ (buildGraph papers conns).nodes,
        m.degree ≤ maxDegree (buildGraph papers conns).nodes) ∧
      (∃ m ∈ (buildGraph papers conns).nodes,
        m.degree = maxDegree (buildGraph papers conns).nodes) ∧
      (maxDegree (buildGraph papers conns).nodes = 0 → n.centrality = 0) ∧
      (0 < maxDegree (buildGraph papers conns).nodes →
        n.degree = maxDegree (buildGraph papers conns).nodes → n.centrality = 1) := by
  intro n hn
  have hnodes : (buildGraph papers conns).nodes =
      (performClustering (degreeNodes papers conns) (buildLinks conns)).map
        (fun nc => { nc with
          centrality := centralityOf
            (performClustering (degreeNodes papers conns) (buildLinks conns)) nc }) := rfl
  have hmax : maxDegree (buildGraph papers conns).nodes =
      maxDegree (performClustering (degreeNodes papers conns) (buildLinks conns)) := by
    rw [hnodes, maxDegree_map_centrality]
  rw [hnodes] at hn
  obtain ⟨nc, hnc, rfl⟩ := List.mem_map.mp hn
  have hspec := centralityOf_spec _ nc hnc
  refine ⟨hspec.1, hspec.2.1, ?_, ?_, ?_, ?_⟩
  · intro m hm
    rw [hnodes] at hm
    obtain ⟨mc, hmc, rfl⟩ := List.mem_map.mp hm
    rw [hmax]
    exact le_foldr_max _ _ (List.mem_map_of_mem (fun x => x.degree) hmc)
  · have hne : (performClustering (degreeNodes papers conns) (buildLinks conns)) ≠ [] := by
      intro hc
      rw [hc] at hnc
      simp at hnc
    have hmem := foldr_max_mem
      ((performClustering (degreeNodes papers conns) (buildLinks conns)).map
        (fun x => x.degree)) (by simp [hne])
    obtain ⟨mc, hmc, hdeg⟩ := List.mem_map.mp hmem
    refine ⟨{ mc with
        centrality := centralityOf
          (performClustering (degreeNodes papers conns) (buildLinks conns)) mc }, ?_, ?_⟩
    · rw [hnodes]
      exact List.mem_map_of_mem _ hmc
    · rw [hmax]
      exact hdeg
  · intro h0
    exact hspec.2.2.1 (by rw [hmax] at h0; exact h0)
  · intro hpos hdeg
    exact hspec.2.2.2 (by rw [hmax] at hpos; exact hpos) (by rw [hmax] at hdeg; exact hdeg)

theorem buildGraph_centrality_spec_witness :
    (⟨"a", "t1", none, [], "Unknown", none, 0, some ("Unknown-0"), 0⟩ : GNode) ∈
      (buildGraph [{ id := "a", title := "t1" }] []).nodes ∧
    (0 ≤ (⟨"a", "t1", none, [], "Unknown", none, 0, some ("Unknown-0"), 0⟩ : GNode).centrality ∧
      (⟨"a", "t1", none, [], "Unknown", none, 0, some ("Unknown-0"), 0⟩ : GNode).centrality ≤ 1 ∧
      (∀ m ∈ (buildGraph [{ id := "a", title := "t1" }] []).nodes,
        m.degree ≤ maxDegree (buildGraph [{ id := "a", title := "t1" }] []).nodes) ∧
      (∃ m ∈ (buildGraph [{ id := "a", title := "t1" }] []).nodes,
        m.degree = maxDegree (buildGraph [{ id := "a", title := "t1" }] []).nodes) ∧
      (maxDegree (buildGraph [{ id := "a", title := "t1" }] []).nodes = 0 →
        (⟨"a", "t1", none, [], "Unknown", none, 0, some ("Unknown-0"), 0⟩ : GNode).centrality = 0) ∧
      (0 < maxDegree (buildGraph [{ id := "a", title := "t1" }] []).nodes →
        (⟨"a", "t1", none, [], "Unknown", none, 0, some ("Unknown-0"), 0⟩ : GNode).degree =
          maxDegree (buildGraph [{ id := "a", title := "t1" }] []).nodes →
        (⟨"a", "t1", none, [], "Unknown", none, 0, some ("Unknown-0"), 0⟩ : GNode).centrality = 1)) :=
  ⟨by decide,
    buildGraph_centrality_spec [{ id := "a", title := "t1" }] []
      ⟨"a", "t1", none, [], "Unknown", none, 0, some ("Unknown-0"), 0⟩ (by decide)⟩

theorem adjacent_symm (links : List Link) (a b : String) :
    Adjacent links a b → Adjacent links b a := by
  rintro ⟨l, hl, hor⟩
  exact ⟨l, hl, hor.symm⟩

theorem mem_adjListOf (links : List Link) (a b : String) :
    b ∈ adjListOf links a ↔ Adjacent links a b := by
  unfold adjListOf Adjacent
  rw [AstraNode.mem_firstDedup]
  simp only [List.mem_map, List.mem_filter, decide_eq_true_eq]
  constructor
  · rintro ⟨l, ⟨hl, hio⟩, hother⟩
    by_cases hs : l.source = a
    · rw [if_pos hs] at hother
      exact ⟨l, hl, Or.inl ⟨hs, hother⟩⟩
    · rw [if_neg hs] at hother
      rcases hio with hio | hio
      · exact absurd hio hs
      · exact ⟨l, hl, Or.inr ⟨hother, hio⟩⟩
  · rintro ⟨l, hl, hor | hor⟩
    · refine ⟨l, ⟨hl, Or.inl hor.1⟩, ?_⟩
      rw [if_pos hor.1]
      exact hor.2
    · refine ⟨l, ⟨hl, Or.inr hor.2⟩, ?_⟩
      by_cases hs : l.source = a
      · rw [if_pos hs]
        rw [hor.2, ← hs]
        exact hor.1
      · rw [if_neg hs]
        exact hor.1

theorem dominantDomain_fold_spec (ds : List String) :
    ∀ (rest : List String) (best : String), best ∈ ds → (∀ d ∈ rest, d ∈ ds) →
      (rest.foldl (fun best d => if ds.count best < ds.count d then d else best) best) ∈ ds ∧
      ds.count best ≤
        ds.count (rest.foldl (fun best d => if ds.count best < ds.count d then d else best) best) ∧
      (∀ d ∈ rest, ds.count d ≤
        ds.count (rest.foldl (fun best d => if ds.count best < ds.count d then d else best) best)) := by
  intro rest
  induction rest with
  | nil => intro best hbest _; exact ⟨hbest, le_refl _, by simp⟩
  | cons d rest ih =>
    intro best hbest hmem
    simp only [List.foldl_cons]
    by_cases hlt : ds.count best < ds.count d
    · rw [if_pos hlt]
      have hspec := ih d (hmem d (List.mem_cons_self d rest))
        (fun x hx => hmem x (List.mem_cons_of_mem d hx))
      refine ⟨hspec.1, le_trans (le_of_lt hlt) hspec.2.1, ?_⟩
      intro x hx
      rcases List.mem_cons.mp hx with rfl | hx2
      · exact hspec.2.1
      · exact hspec.2.2 x hx2
    · rw [if_neg hlt]
      have hspec := ih best hbest (fun x hx => hmem x (List.mem_cons_of_mem d hx))
      refine ⟨hspec.1, hspec.2.1, ?_⟩
      intro x hx
      rcases List.mem_cons.mp hx with rfl | hx2
      · exact le_trans (Nat.le_of_not_lt hlt) hspec.2.1
      · exact hspec.2.2 x hx2

theorem dominantDomain_spec (ds : List String) (hne : ds ≠ []) :
    dominantDomain ds ∈ ds ∧ ∀ d ∈ ds, ds.count d ≤ ds.count (dominantDomain ds) := by
  unfold dominantDomain
  have hdedup : ∀ x, x ∈ AstraNode.firstDedup ds ↔ x ∈ ds :=
    fun x => AstraNode.mem_firstDedup ds x
  cases hfd : AstraNode.firstDedup ds with
  | nil =>
    obtain ⟨d, hd⟩ := List.exists_mem_of_ne_nil ds hne
    have := (hdedup d).mpr hd
    rw [hfd] at this
    simp at this
  | cons d0 rest =>
    have hd0 : d0 ∈ ds := (hdedup d0).mp (by rw [hfd]; exact List.mem_cons_self _ _)
    have hrest : ∀ d ∈ rest, d ∈ ds :=
      fun d hd => (hdedup d).mp (by rw [hfd]; exact List.mem_cons_of_mem _ hd)
    have hspec := dominantDomain_fold_spec ds rest d0 hd0 hrest
    refine ⟨hspec.1, ?_⟩
    intro d hd
    have : d ∈ AstraNode.firstDedup ds := (hdedup d).mpr hd
    rw [hfd] at this
    rcases List.mem_cons.mp this with rfl | hmem
    · exact hspec.2.1
    · exact hspec.2.2 d hmem

theorem labelMapAux_none (nodes : List GNode) (comps : List (List String)) (x : String)
    (hx : x ∉ comps.flatten) : ∀ k0, labelMapAux nodes k0 comps x = none := by
  induction comps with
  | nil => intro k0; rfl
  | cons c rest ih =>
    intro k0
    have hxc : x ∉ c := fun hc => hx (List.mem_flatten.mpr ⟨c, List.mem_cons_self _ _, hc⟩)
    have hxr : x ∉ rest.flatten := by
      intro hc
      obtain ⟨l, hl, hxl⟩ := List.mem_flatten.mp hc
      exact hx (List.mem_flatten.mpr ⟨l, List.mem_cons_of_mem c hl, hxl⟩)
    show (match labelMapAux nodes (k0 + 1) rest x with
      | some l => some l
      | none => if x ∈ c then some (clusterLabel nodes c k0) else none) = none
    rw [ih hxr (k0 + 1)]
    simp [hxc]

theorem labelMapAux_get (nodes : List GNode) :
    ∀ (comps : List (List String)) (k0 : ℕ) (j : Fin comps.length) (x : String),
      comps.flatten.Nodup → x ∈ comps.get j →
      labelMapAux nodes k0 comps x = some (clusterLabel nodes (comps.get j) (k0 + j)) := by
  intro comps
  induction comps with
  | nil => intro k0 j; exact absurd j.2 (by simp)
  | cons c rest ih =>
    intro k0 j x hnd hx
    have hnd2 := hnd
    rw [List.flatten_cons, List.nodup_append] at hnd2
    show (match labelMapAux nodes (k0 + 1) rest x with
      | some l => some l
      | none => if x ∈ c then some (clusterLabel nodes c k0) else none) =
      some (clusterLabel nodes ((c :: rest).get j) (k0 + j))
    rcases j with ⟨jv, hjv⟩
    cases jv with
    | zero =>
      have hxc : x ∈ c := hx
      have hxr : x ∉ rest.flatten := fun hc => hnd2.2.2 hxc hc
      rw [labelMapAux_none nodes rest x hxr (k0 + 1)]
      simp [hxc, clusterLabel]
    | succ j' =>
      have hj' : j' < rest.length := by
        simpa using hjv
      have hxr : x ∈ rest.get ⟨j', hj'⟩ := hx
      rw [ih (k0 + 1) ⟨j', hj'⟩ x hnd2.2.1 hxr]
      have : k0 + 1 + j' = k0 + (j' + 1) := by omega
      simp [this]

theorem dfsVisit_succ_def (adj : String → List String) (fuel : ℕ) (id : String)
    (vis : Finset String) :
    dfsVisit adj (fuel + 1) id vis = (adj id).foldl (dfsStep adj fuel) (insert id vis, [id]) :=
  rfl

theorem dfsVisit_fold_spec (adj : String → List String) (fuel : ℕ)
    (ih : ∀ (id : String) (vis : Finset String), id ∉ vis →
      (dfsVisit adj fuel id vis).1 = vis ∪ (dfsVisit adj fuel id vis).2.toFinset ∧
      (dfsVisit adj fuel id vis).2.Nodup ∧
      (∀ x ∈ (dfsVisit adj fuel id vis).2, x ∉ vis) ∧
      (∀ x ∈ (dfsVisit adj fuel id vis).2,
        Relation.ReflTransGen (fun a b => b ∈ adj a) id x)) :
    ∀ (nbs : List String) (acc : Finset String × List String),
      ∃ d, ((nbs.foldl (dfsStep adj fuel) acc).1 = acc.1 ∪ d.toFinset ∧
        (nbs.foldl (dfsStep adj fuel) acc).2 = acc.2 ++ d) ∧
        d.Nodup ∧ (∀ x ∈ d, x ∉ acc.1) ∧
        (∀ x ∈ d, ∃ nb ∈ nbs, Relation.ReflTransGen (fun a b => b ∈ adj a) nb x) := by
  intro nbs
  induction nbs with
  | nil =>
    intro acc
    exact ⟨[], ⟨by simp, by simp⟩, by simp, by simp, by simp⟩
  | cons nb nbs ihn =>
    intro acc
    by_cases hmem : nb ∈ acc.1
    · have hstep : dfsStep adj fuel acc nb = acc := by
        unfold dfsStep
        rw [if_pos hmem]
      simp only [List.foldl_cons, hstep]
      obtain ⟨d, ⟨h1, h2⟩, h3, h4, h5⟩ := ihn acc
      refine ⟨d, ⟨h1, h2⟩, h3, h4, ?_⟩
      intro x hx
      obtain ⟨nb', hnb', hr⟩ := h5 x hx
      exact ⟨nb', List.mem_cons_of_mem _ hnb', hr⟩
    · have hstep : dfsStep adj fuel acc nb =
          ((dfsVisit adj fuel nb acc.1).1, acc.2 ++ (dfsVisit adj fuel nb acc.1).2) := by
        unfold dfsStep
        rw [if_neg hmem]
      simp only [List.foldl_cons, hstep]
      obtain ⟨hv, hnd, hnotin, hreach⟩ := ih nb acc.1 hmem
      obtain ⟨d, ⟨h1, h2⟩, h3, h4, h5⟩ :=
        ihn ((dfsVisit adj fuel nb acc.1).1, acc.2 ++ (dfsVisit adj fuel nb acc.1).2)
      refine ⟨(dfsVisit adj fuel nb acc.1).2 ++ d, ⟨?_, ?_⟩, ?_, ?_, ?_⟩
      · rw [h1, hv, List.toFinset_append, Finset.union_assoc]
      · rw [h2, List.append_assoc]
      · rw [List.nodup_append]
        refine ⟨hnd, h3, ?_⟩
        intro x hxc hxd
        exact h4 x hxd (by rw [hv]; exact Finset.mem_union_right _ (List.mem_toFinset.mpr hxc))
      · intro x hx
        rcases List.mem_append.mp hx with hx | hx
        · exact hnotin x hx
        · intro hxacc
          exact h4 x hx (by rw [hv]; exact Finset.mem_union_left _ hxacc)
      · intro x hx
        rcases List.mem_append.mp hx with hx | hx
        · exact ⟨nb, List.mem_cons_self _ _, hreach x hx⟩
        · obtain ⟨nb', hnb', hr⟩ := h5 x hx
          exact ⟨nb', List.mem_cons_of_mem _ hnb', hr⟩

theorem dfsVisit_spec (adj : String → List String) :
    ∀ (fuel : ℕ) (id : String) (vis : Finset String), id ∉ vis →
      (dfsVisit adj fuel id vis).1 = vis ∪ (dfsVisit adj fuel id vis).2.toFinset ∧
      (dfsVisit adj fuel id vis).2.Nodup ∧
      (∀ x ∈ (dfsVisit adj fuel id vis).2, x ∉ vis) ∧
      (∀ x ∈ (dfsVisit adj fuel id vis).2,
        Relation.ReflTransGen (fun a b => b ∈ adj a) id x) ∧
      (fuel ≠ 0 → ∃ t, (dfsVisit adj fuel id vis).2 = id :: t) := by
  intro fuel
  induction fuel with
  | zero =>
    intro id vis hid
    exact ⟨by simp [dfsVisit], by simp [dfsVisit], by simp [dfsVisit],
      by simp [dfsVisit], fun h => absurd rfl h⟩
  | succ fuel ihf =>
    intro id vis hid
    have ih' : ∀ (id' : String) (vis' : Finset String), id' ∉ vis' →
        (dfsVisit adj fuel id' vis').1 = vis' ∪ (dfsVisit adj fuel id' vis').2.toFinset ∧
        (dfsVisit adj fuel id' vis').2.Nodup ∧
        (∀ x ∈ (dfsVisit adj fuel id' vis').2, x ∉ vis') ∧
        (∀ x ∈ (dfsVisit adj fuel id' vis').2,
          Relation.ReflTransGen (fun a b => b ∈ adj a) id' x) :=
      fun id' vis' h =>
        ⟨(ihf id' vis' h).1, (ihf id' vis' h).2.1, (ihf id' vis' h).2.2.1,
          (ihf id' vis' h).2.2.2.1⟩
    obtain ⟨d, ⟨h1, h2⟩, h3, h4, h5⟩ :=
      dfsVisit_fold_spec adj fuel ih' (adj id) (insert id vis, [id])
    rw [dfsVisit_succ_def]
    refine ⟨?_, ?_, ?_, ?_, ?_⟩
    · rw [h1, h2]
      ext a
      simp only [Finset.mem_union, Finset.mem_insert, List.toFinset_cons, List.mem_toFinset,
        List.cons_append, List.nil_append, List.toFinset_append]
      constructor
      · rintro (⟨rfl | ha⟩ | ha) <;> tauto
      · rintro (ha | ⟨rfl | ha⟩) <;> tauto
    · rw [h2]
      rw [List.cons_append, List.nil_append, List.nodup_cons]
      refine ⟨?_, h3⟩
      intro hc
      exact h4 id hc (Finset.mem_insert_self _ _)
    · rw [h2]
      intro x hx
      rcases List.mem_cons.mp (by simpa using hx) with rfl | hx2
      · exact hid
      · intro hv
        exact h4 x hx2 (Finset.mem_insert_of_mem hv)
    · rw [h2]
      intro x hx
      rcases List.mem_cons.mp (by simpa using hx) with rfl | hx2
      · exact Relation.ReflTransGen.refl
      · obtain ⟨nb, hnb, hr⟩ := h5 x hx2
        exact Relation.ReflTransGen.head hnb hr
    · intro _
      rw [h2]
      exact ⟨d, by simp⟩

theorem budget_step (U vis acc1 : Finset String) (id : String) (fuel : ℕ)
    (hidU : id ∈ U) (hidvis : id ∉ vis) (hcard : (U \ vis).card < fuel + 1)
    (hsub : insert id vis ⊆ acc1) :
    (U \ acc1).card < fuel := by
  have h1 : (U \ acc1).card ≤ (U \ insert id vis).card :=
    Finset.card_le_card (Finset.sdiff_subset_sdiff (le_refl U) hsub)
  have hmem : id ∈ U \ vis := Finset.mem_sdiff.mpr ⟨hidU, hidvis⟩
  have h2 : (U \ insert id vis).card = (U \ vis).card - 1 := by
    rw [Finset.sdiff_insert, Finset.card_erase_of_mem hmem]
  have h3 : 0 < (U \ vis).card := Finset.card_pos.mpr ⟨id, hmem⟩
  omega

theorem dfsClosed_fold (adj : String → List String) (U : Finset String)
    (hadjU : ∀ a b, b ∈ adj a → b ∈ U) (fuel : ℕ) (id : String) (vis : Finset String)
    (hidU : id ∈ U) (hidvis : id ∉ vis) (hcard : (U \ vis).card < fuel + 1)
    (ihf : ∀ (id' : String) (vis' : Finset String), id' ∈ U → id' ∉ vis' →
      (U \ vis').card < fuel →
      ∀ x ∈ (dfsVisit adj fuel id' vis').2, ∀ y ∈ adj x, y ∈ (dfsVisit adj fuel id' vis').1) :
    ∀ (nbs : List String), (∀ nb ∈ nbs, nb ∈ adj id) →
      ∀ acc : Finset String × List String,
        insert id vis ⊆ acc.1 →
        (∀ x ∈ acc.2, x = id ∨ ∀ y ∈ adj x, y ∈ acc.1) →
        (acc.1 ⊆ (nbs.foldl (dfsStep adj fuel) acc).1 ∧
          (∀ nb ∈ nbs, nb ∈ (nbs.foldl (dfsStep adj fuel) acc).1) ∧
          (∀ x ∈ (nbs.foldl (dfsStep adj fuel) acc).2,
            x = id ∨ ∀ y ∈ adj x, y ∈ (nbs.foldl (dfsStep adj fuel) acc).1)) := by
  intro nbs
  induction nbs with
  | nil =>
    intro _ acc hsub hclosed
    exact ⟨subset_refl _, by simp, hclosed⟩
  | cons nb nbs ihn =>
    intro hnbs acc hsub hclosed
    by_cases hmem : nb ∈ acc.1
    · have hstep : dfsStep adj fuel acc nb = acc := by
        unfold dfsStep
        rw [if_pos hmem]
      simp only [List.foldl_cons, hstep]
      have hres := ihn (fun x hx => hnbs x (List.mem_cons_of_mem _ hx)) acc hsub hclosed
      refine ⟨hres.1, ?_, hres.2.2⟩
      intro nb' hnb'
      rcases List.mem_cons.mp hnb' with rfl | hnb2
      · exact hres.1 hmem
      · exact hres.2.1 nb' hnb2
    · have hstep : dfsStep adj fuel acc nb =
          ((dfsVisit adj fuel nb acc.1).1, acc.2 ++ (dfsVisit adj fuel nb acc.1).2) := by
        unfold dfsStep
        rw [if_neg hmem]
      simp only [List.foldl_cons, hstep]
      have hbudget : (U \ acc.1).card < fuel :=
        budget_step U vis acc.1 id fuel hidU hidvis hcard hsub
      have hfuelpos : fuel ≠ 0 := by omega
      have hnbU : nb ∈ U := hadjU id nb (hnbs nb (List.mem_cons_self _ _))
      obtain ⟨hv, _, _, _, hhead⟩ := dfsVisit_spec adj fuel nb acc.1 hmem
      have hcomp := ihf nb acc.1 hnbU hmem hbudget
      have hmono : acc.1 ⊆ (dfsVisit adj fuel nb acc.1).1 := by
        rw [hv]
        exact Finset.subset_union_left
      have hsub' : insert id vis ⊆ (dfsVisit adj fuel nb acc.1).1 :=
        subset_trans hsub hmono
      have hclosed' : ∀ x ∈ acc.2 ++ (dfsVisit adj fuel nb acc.1).2,
          x = id ∨ ∀ y ∈ adj x, y ∈ (dfsVisit adj fuel nb acc.1).1 := by
        intro x hx
        rcases List.mem_append.mp hx with hx | hx
        · rcases hclosed x hx with rfl | hcl
          · exact Or.inl rfl
          · exact Or.inr (fun y hy => hmono (hcl y hy))
        · exact Or.inr (fun y hy => hcomp x hx y hy)
      have hres := ihn (fun x hx => hnbs x (List.mem_cons_of_mem _ hx))
        ((dfsVisit adj fuel nb acc.1).1, acc.2 ++ (dfsVisit adj fuel nb acc.1).2)
        hsub' hclosed'
      refine ⟨subset_trans hmono hres.1, ?_, hres.2.2⟩
      intro nb' hnb'
      rcases List.mem_cons.mp hnb' with rfl | hnb2
      · obtain ⟨t, ht⟩ := hhead hfuelpos
        have : nb' ∈ (dfsVisit adj fuel nb' acc.1).2 := by
          rw [ht]
          exact List.mem_cons_self _ _
        have hin : nb' ∈ (dfsVisit adj fuel nb' acc.1).1 := by
          rw [hv]
          exact Finset.mem_union_right _ (List.mem_toFinset.mpr this)
        exact hres.1 hin
      · exact hres.2.1 nb' hnb2

theorem dfsVisit_closed (adj : String → List String) (U : Finset String)
    (hadjU : ∀ a b, b ∈ adj a → b ∈ U) :
    ∀ (fuel : ℕ) (id : String) (vis : Finset String), id ∈ U → id ∉ vis →
      (U \ vis).card < fuel →
      ∀ x ∈ (dfsVisit adj fuel id vis).2, ∀ y ∈ adj x,
        y ∈ (dfsVisit adj fuel id vis).1 := by
  intro fuel
  induction fuel with
  | zero =>
    intro id vis _ _ hcard
    exact absurd hcard (Nat.not_lt_zero _)
  | succ fuel ihf =>
    intro id vis hidU hidvis hcard
    rw [dfsVisit_succ_def]
    have hfold := dfsClosed_fold adj U hadjU fuel id vis hidU hidvis hcard ihf
      (adj id) (fun nb h => h) (insert id vis, [id]) (subset_refl _)
      (fun x hx => Or.inl (by simpa using hx))
    intro x hx y hy
    rcases hfold.2.2 x hx with rfl | hcl
    · exact hfold.2.1 y hy
    · exact hcl y hy

theorem componentsFold_def (ids : List String) (adj : String → List String) (fuel : ℕ) :
    componentsFold ids adj fuel = ids.foldl (compStep adj fuel) (∅, []) :=
  rfl

theorem reach_mem_of_adj_mem (adj : String → List String) (U : Finset String)
    (hadjU : ∀ a b, b ∈ adj a → b ∈ U) (x y : String) (hx : x ∈ U)
    (h : Relation.ReflTransGen (fun a b => b ∈ adj a) x y) : y ∈ U := by
  induction h with
  | refl => exact hx
  | tail _ h2 _ => exact hadjU _ _ h2

theorem concat_eq_append_cons {α : Type} (l1 : List α) (a : α) (pre suf : List α) (c : α)
    (h : l1 ++ [a] = pre ++ c :: suf) :
    (suf = [] ∧ pre = l1 ∧ c = a) ∨
      (∃ suf', suf = suf' ++ [a] ∧ l1 = pre ++ c :: suf') := by
  rcases List.eq_nil_or_concat suf with rfl | ⟨init, last, hsuf⟩
  · left
    have h2 : l1 ++ [a] = pre ++ [c] := by simpa using h
    have hinj := List.append_inj' h2 rfl
    have hca : a = c := by simpa using hinj.2
    exact ⟨rfl, hinj.1.symm, hca.symm⟩
  · right
    rw [List.concat_eq_append] at hsuf
    subst hsuf
    have h2 : l1 ++ [a] = (pre ++ c :: init) ++ [last] := by
      rw [h]
      simp
    have hinj := List.append_inj' h2 rfl
    have hla : a = last := by simpa using hinj.2
    exact ⟨init, by rw [hla], hinj.1⟩

theorem componentsFold_fold_spec (adj : String → List String) (U : Finset String)
    (hadjU : ∀ a b, b ∈ adj a → b ∈ U) (fuel : ℕ) (hfuel : U.card < fuel) :
    ∀ (ids : List String), (∀ i ∈ ids, i ∈ U) →
      ∀ acc : Finset String × List (List String),
        acc.1 = acc.2.flatten.toFinset →
        acc.2.flatten.Nodup →
        acc.1 ⊆ U →
        (∀ c ∈ acc.2, ∃ t root, c = root :: t ∧
          ∀ x ∈ c, Relation.ReflTransGen (fun a b => b ∈ adj a) root x) →
        (∀ pre c suf, acc.2 = pre ++ c :: suf →
          ∀ x ∈ c, ∀ y ∈ adj x, y ∈ pre.flatten.toFinset ∪ c.toFinset) →
        ((ids.foldl (compStep adj fuel) acc).1 =
            (ids.foldl (compStep adj fuel) acc).2.flatten.toFinset ∧
          (ids.foldl (compStep adj fuel) acc).2.flatten.Nodup ∧
          (ids.foldl (compStep adj fuel) acc).1 ⊆ U ∧
          acc.1 ⊆ (ids.foldl (compStep adj fuel) acc).1 ∧
          (∀ i ∈ ids, i ∈ (ids.foldl (compStep adj fuel) acc).1) ∧
          (∀ c ∈ (ids.foldl (compStep adj fuel) acc).2, ∃ t root, c = root :: t ∧
            ∀ x ∈ c, Relation.ReflTransGen (fun a b => b ∈ adj a) root x) ∧
          (∀ pre c suf, (ids.foldl (compStep adj fuel) acc).2 = pre ++ c :: suf →
            ∀ x ∈ c, ∀ y ∈ adj x, y ∈ pre.flatten.toFinset ∪ c.toFinset)) := by
  intro ids
  induction ids with
  | nil =>
    intro _ acc h1 h2 h3 h4 h5
    exact ⟨h1, h2, h3, subset_refl _, by simp, h4, h5⟩
  | cons i ids ihn =>
    intro hidsU acc h1 h2 h3 h4 h5
    have hidsU' : ∀ x ∈ ids, x ∈ U := fun x hx => hidsU x (List.mem_cons_of_mem _ hx)
    by_cases hmem : i ∈ acc.1
    · have hstep : compStep adj fuel acc i = acc := by
        unfold compStep
        rw [if_pos hmem]
      simp only [List.foldl_cons, hstep]
      have hres := ihn hidsU' acc h1 h2 h3 h4 h5
      refine ⟨hres.1, hres.2.1, hres.2.2.1, hres.2.2.2.1, ?_, hres.2.2.2.2.2.1,
        hres.2.2.2.2.2.2⟩
      intro i' hi'
      rcases List.mem_cons.mp hi' with rfl | hi2
      · exact hres.2.2.2.1 hmem
      · exact hres.2.2.2.2.1 i' hi2
    · have hstep : compStep adj fuel acc i =
          ((dfsVisit adj fuel i acc.1).1, acc.2 ++ [(dfsVisit adj fuel i acc.1).2]) := by
        unfold compStep
        rw [if_neg hmem]
      simp only [List.foldl_cons, hstep]
      have hiU : i ∈ U := hidsU i (List.mem_cons_self _ _)
      have hbudget : (U \ acc.1).card < fuel :=
        lt_of_le_of_lt (Finset.card_le_card (Finset.sdiff_subset)) hfuel
      have hfuelpos : fuel ≠ 0 := by omega
      obtain ⟨hv, hnd, hnotin, hreach, hhead⟩ := dfsVisit_spec adj fuel i acc.1 hmem
      have hclosed := dfsVisit_closed adj U hadjU fuel i acc.1 hiU hmem hbudget
      have hcompU : ∀ x ∈ (dfsVisit adj fuel i acc.1).2, x ∈ U :=
        fun x hx => reach_mem_of_adj_mem adj U hadjU i x hiU (hreach x hx)
      have h1' : (dfsVisit adj fuel i acc.1).1 =
          ((acc.2 ++ [(dfsVisit adj fuel i acc.1).2]).flatten).toFinset := by
        rw [hv, h1]
        simp [List.toFinset_append]
      have h2' : ((acc.2 ++ [(dfsVisit adj fuel i acc.1).2]).flatten).Nodup := by
        rw [List.flatten_append]
        rw [List.nodup_append]
        refine ⟨h2, by simpa using hnd, ?_⟩
        intro x hxa hxc
        simp only [List.flatten_cons, List.flatten_nil, List.append_nil] at hxc
        exact hnotin x hxc (h1 ▸ List.mem_toFinset.mpr hxa)
      have h3' : (dfsVisit adj fuel i acc.1).1 ⊆ U := by
        rw [hv]
        intro x hx
        rcases Finset.mem_union.mp hx with hx | hx
        · exact h3 hx
        · exact hcompU x (List.mem_toFinset.mp hx)
      have h4' : ∀ c ∈ acc.2 ++ [(dfsVisit adj fuel i acc.1).2], ∃ t root, c = root :: t ∧
          ∀ x ∈ c, Relation.ReflTransGen (fun a b => b ∈ adj a) root x := by
        intro c hc
        rcases List.mem_append.mp hc with hc | hc
        · exact h4 c hc
        · obtain ⟨t, ht⟩ := hhead hfuelpos
          have : c = (dfsVisit adj fuel i acc.1).2 := by simpa using hc
          subst this
          exact ⟨t, i, ht, hreach⟩
      have h5' : ∀ pre c suf, acc.2 ++ [(dfsVisit adj fuel i acc.1).2] = pre ++ c :: suf →
          ∀ x ∈ c, ∀ y ∈ adj x, y ∈ pre.flatten.toFinset ∪ c.toFinset := by
        intro pre c suf hsplit x hx y hy
        rcases concat_eq_append_cons acc.2 _ pre suf c hsplit with ⟨_, hpre, hc⟩ |
          ⟨suf', _, hacc⟩
        · subst hpre
          subst hc
          have hthis := hclosed x hx y hy
          rw [hv] at hthis
          rcases Finset.mem_union.mp hthis with hl | hr
          · exact Finset.mem_union_left _ (h1 ▸ hl)
          · exact Finset.mem_union_right _ hr
        · exact h5 pre c suf' hacc x hx y hy
      have hres := ihn hidsU'
        ((dfsVisit adj fuel i acc.1).1, acc.2 ++ [(dfsVisit adj fuel i acc.1).2])
        h1' h2' h3' h4' h5'
      have hmono : acc.1 ⊆ (dfsVisit adj fuel i acc.1).1 := by
        rw [hv]
        exact Finset.subset_union_left
      refine ⟨hres.1, hres.2.1, hres.2.2.1, subset_trans hmono hres.2.2.2.1, ?_,
        hres.2.2.2.2.2.1, hres.2.2.2.2.2.2⟩
      intro i' hi'
      rcases List.mem_cons.mp hi' with rfl | hi2
      · obtain ⟨t, ht⟩ := hhead hfuelpos
        have hin : i' ∈ (dfsVisit adj fuel i' acc.1).1 := by
          rw [hv]
          refine Finset.mem_union_right _ (List.mem_toFinset.mpr ?_)
          rw [ht]
          exact List.mem_cons_self _ _
        exact hres.2.2.2.1 hin
      · exact hres.2.2.2.2.1 i' hi2

theorem componentsFold_spec (adj : String → List String) (U : Finset String)
    (hadjU : ∀ a b, b ∈ adj a → b ∈ U) (fuel : ℕ) (hfuel : U.card < fuel)
    (ids : List String) (hids : ∀ i ∈ ids, i ∈ U) :
    (componentsFold ids adj fuel).1 = (componentsFold ids adj fuel).2.flatten.toFinset ∧
    (componentsFold ids adj fuel).2.flatten.Nodup ∧
    (componentsFold ids adj fuel).1 ⊆ U ∧
    (∀ i ∈ ids, i ∈ (componentsFold ids adj fuel).1) ∧
    (∀ c ∈ (componentsFold ids adj fuel).2, ∃ t root, c = root :: t ∧
      ∀ x ∈ c, Relation.ReflTransGen (fun a b => b ∈ adj a) root x) ∧
    (∀ pre c suf, (componentsFold ids adj fuel).2 = pre ++ c :: suf →
      ∀ x ∈ c, ∀ y ∈ adj x, y ∈ pre.flatten.toFinset ∪ c.toFinset) := by
  have hres := componentsFold_fold_spec adj U hadjU fuel hfuel ids hids (∅, [])
    (by simp) (by simp) (by simp) (by simp) (by intro pre c suf h; simp at h)
  rw [componentsFold_def]
  exact ⟨hres.1, hres.2.1, hres.2.2.1, hres.2.2.2.2.1, hres.2.2.2.2.2.1,
    hres.2.2.2.2.2.2⟩

theorem nodup_middle_of_flatten {comps pre suf : List (List String)} {c : List String}
    (hsplit : comps = pre ++ c :: suf) (hnd : comps.flatten.Nodup) :
    c.Nodup ∧ (∀ x ∈ c, x ∉ pre.flatten) := by
  subst hsplit
  rw [List.flatten_append, List.flatten_cons, List.nodup_append, List.nodup_append] at hnd
  exact ⟨hnd.2.1.1, fun x hx hxp => hnd.2.2 hxp (List.mem_append_left _ hx)⟩

theorem adj_mem_same_comp (adj : String → List String) (comps : List (List String))
    (hnd : comps.flatten.Nodup)
    (hcl : ∀ pre c suf, comps = pre ++ c :: suf →
      ∀ x ∈ c, ∀ y ∈ adj x, y ∈ pre.flatten.toFinset ∪ c.toFinset)
    (hsym : ∀ a b, b ∈ adj a → a ∈ adj b) :
    ∀ pre c suf, comps = pre ++ c :: suf → ∀ x ∈ c, ∀ y ∈ adj x, y ∈ c := by
  intro pre c suf hsplit x hx y hy
  rcases Finset.mem_union.mp (hcl pre c suf hsplit x hx y hy) with hyp | hyc
  · exfalso
    obtain ⟨c', hc', hyc'⟩ := List.mem_flatten.mp (List.mem_toFinset.mp hyp)
    obtain ⟨p1, p2, hpre⟩ := List.append_of_mem hc'
    have hsplit2 : comps = p1 ++ c' :: (p2 ++ c :: suf) := by
      rw [hsplit, hpre]
      simp
    have hx2 := hcl p1 c' (p2 ++ c :: suf) hsplit2 y hyc' x (hsym x y hy)
    have hdisj := nodup_middle_of_flatten hsplit hnd
    rcases Finset.mem_union.mp hx2 with hx3 | hx3
    · refine hdisj.2 x hx ?_
      rw [hpre]
      have := List.mem_toFinset.mp hx3
      rw [List.flatten_append]
      exact List.mem_append_left _ this
    · refine hdisj.2 x hx ?_
      rw [hpre, List.flatten_append, List.flatten_cons]
      exact List.mem_append_right _ (List.mem_append_left _ (List.mem_toFinset.mp hx3))
  · exact List.mem_toFinset.mp hyc

theorem reach_in_comp (adj : String → List String) (comps : List (List String))
    (hnd : comps.flatten.Nodup)
    (hcl : ∀ pre c suf, comps = pre ++ c :: suf →
      ∀ x ∈ c, ∀ y ∈ adj x, y ∈ pre.flatten.toFinset ∪ c.toFinset)
    (hsym : ∀ a b, b ∈ adj a → a ∈ adj b) :
    ∀ pre c suf, comps = pre ++ c :: suf → ∀ a ∈ c, ∀ b,
      Relation.ReflTransGen (fun u v => v ∈ adj u) a b → b ∈ c := by
  intro pre c suf hsplit a ha b hreach
  induction hreach with
  | refl => exact ha
  | tail _ h2 ih => exact adj_mem_same_comp adj comps hnd hcl hsym pre c suf hsplit _ ih _ h2

theorem comp_mem_iff_reach (adj : String → List String) (comps : List (List String))
    (hnd : comps.flatten.Nodup)
    (hcl : ∀ pre c suf, comps = pre ++ c :: suf →
      ∀ x ∈ c, ∀ y ∈ adj x, y ∈ pre.flatten.toFinset ∪ c.toFinset)
    (hsym : ∀ a b, b ∈ adj a → a ∈ adj b)
    (hroot : ∀ c ∈ comps, ∃ t root, c = root :: t ∧
      ∀ x ∈ c, Relation.ReflTransGen (fun u v => v ∈ adj u) root x) :
    ∀ pre c suf, comps = pre ++ c :: suf → ∀ a ∈ c, ∀ b,
      (b ∈ c ↔ Relation.ReflTransGen (fun u v => v ∈ adj u) a b) := by
  intro pre c suf hsplit a ha b
  constructor
  · intro hb
    have hcm : c ∈ comps := by
      rw [hsplit]
      exact List.mem_append_right _ (List.mem_cons_self _ _)
    obtain ⟨t, root, hct, hr⟩ := hroot c hcm
    have hsymR : Symmetric (fun u v => v ∈ adj u) := fun u v h => hsym u v h
    exact Relation.ReflTransGen.trans
      ((Relation.ReflTransGen.symmetric hsymR) (hr a ha)) (hr b hb)
  · exact reach_in_comp adj comps hnd hcl hsym pre c suf hsplit a ha b

theorem reflTransGen_congr {α : Type} {r r' : α → α → Prop}
    (h : ∀ a b, r a b ↔ r' a b) (a b : α) :
    Relation.ReflTransGen r a b ↔ Relation.ReflTransGen r' a b := by
  constructor
  · intro hr
    induction hr with
    | refl => exact Relation.ReflTransGen.refl
    | tail _ h2 ih => exact Relation.ReflTransGen.tail ih ((h _ _).mp h2)
  · intro hr
    induction hr with
    | refl => exact Relation.ReflTransGen.refl
    | tail _ h2 ih => exact Relation.ReflTransGen.tail ih ((h _ _).mpr h2)

theorem degreeNodes_map_id (papers : List AstraNode.Paper)
    (conns : List AstraNode.Connection) :
    (degreeNodes papers conns).map (fun n => n.id) = papers.map AstraNode.Paper.id := by
  unfold degreeNodes initialNodes
  rw [List.map_map, List.map_map]
  rfl

theorem degreeNodes_length (papers : List AstraNode.Paper)
    (conns : List AstraNode.Connection) :
    (degreeNodes papers conns).length = papers.length := by
  unfold degreeNodes initialNodes
  rw [List.length_map, List.length_map]

theorem adj_mem_idSet (papers : List AstraNode.Paper) (conns : List AstraNode.Connection)
    (h : ∀ cn ∈ conns, cn.source ∈ papers.map AstraNode.Paper.id ∧
      cn.target ∈ papers.map AstraNode.Paper.id) :
    ∀ a b, b ∈ adjListOf (buildLinks conns) a →
      b ∈ (papers.map AstraNode.Paper.id).toFinset := by
  intro a b hb
  obtain ⟨l, hl, hor⟩ := (mem_adjListOf _ a b).mp hb
  obtain ⟨cn, hcn, rfl⟩ := List.mem_map.mp hl
  rcases hor with ⟨_, ht⟩ | ⟨hs, _⟩
  · exact List.mem_toFinset.mpr (ht ▸ (h cn hcn).2)
  · exact List.mem_toFinset.mpr (hs ▸ (h cn hcn).1)

theorem adjListOf_symm (links : List Link) :
    ∀ a b, b ∈ adjListOf links a → a ∈ adjListOf links b :=
  fun a b hb =>
    (mem_adjListOf links b a).mpr (adjacent_symm links a b ((mem_adjListOf links a b).mp hb))

theorem buildGraph_node_cluster (papers : List AstraNode.Paper)
    (conns : List AstraNode.Connection) :
    ∀ n ∈ (buildGraph papers conns).nodes,
      n.cluster = some ((labelMapAux (degreeNodes papers conns) 0
        (graphComponents papers conns) n.id).getD "unclustered") ∧
      n.id ∈ papers.map AstraNode.Paper.id := by
  intro n hn
  simp only [buildGraph, performClustering, List.mem_map] at hn
  obtain ⟨nc, ⟨n1, hn1, rfl⟩, rfl⟩ := hn
  refine ⟨rfl, ?_⟩
  have hmem : n1.id ∈ (degreeNodes papers conns).map (fun n => n.id) :=
    List.mem_map_of_mem _ hn1
  rw [degreeNodes_map_id] at hmem
  exact hmem

/-- C6: the Community Detector of `buildGraph` partitions the node ids:
the components' union is exactly the id set and no id occurs in two
components; every node of the built graph carries exactly the cluster label
`` `${dominantDomain}-${k}` `` of the unique component `k` containing it;
the dominant domain is a most-frequent domain among the component's
members; membership in a component is exactly connectivity in the
undirected link graph; and an id incident to no link forms the singleton
component `[a]`.  Hypothesis: every connection endpoint is a node id (the
data model's graph invariant; `performClustering` dereferences
`adjacencyList.get(...)` and `nodes.find(...)` on these ids). -/
theorem buildGraph_clustering_spec (papers : List AstraNode.Paper)
    (conns : List AstraNode.Connection)
    (h : ∀ cn ∈ conns, cn.source ∈ papers.map AstraNode.Paper.id ∧
      cn.target ∈ papers.map AstraNode.Paper.id) :
    ((graphComponents papers conns).flatten.toFinset =
      (papers.map AstraNode.Paper.id).toFinset) ∧
    (graphComponents papers conns).flatten.Nodup ∧
    (∀ n ∈ (buildGraph papers conns).nodes,
      ∃ k : Fin (graphComponents papers conns).length,
        n.id ∈ (graphComponents papers conns).get k ∧
        n.cluster = some (clusterLabel (degreeNodes papers conns)
          ((graphComponents papers conns).get k) (k : ℕ))) ∧
    (∀ c ∈ graphComponents papers conns,
      c.map (domainOfId (degreeNodes papers conns)) ≠ [] ∧
      dominantDomain (c.map (domainOfId (degreeNodes papers conns))) ∈
        c.map (domainOfId (degreeNodes papers conns)) ∧
      (∀ d ∈ c.map (domainOfId (degreeNodes papers conns)),
        (c.map (domainOfId (degreeNodes papers conns))).count d ≤
          (c.map (domainOfId (degreeNodes papers conns))).count
            (dominantDomain (c.map (domainOfId (degreeNodes papers conns)))))) ∧
    (∀ pre c suf, graphComponents papers conns = pre ++ c :: suf →
      ∀ a ∈ c, ∀ b, (b ∈ c ↔ ConnectedIn (buildLinks conns) a b)) ∧
    (∀ a ∈ papers.map AstraNode.Paper.id,
      (∀ l ∈ buildLinks conns, l.source ≠ a ∧ l.target ≠ a) →
      [a] ∈ graphComponents papers conns) := by
  have hadjU := adj_mem_idSet papers conns h
  have hsym := adjListOf_symm (buildLinks conns)
  have hfuel : ((papers.map AstraNode.Paper.id).toFinset).card <
      (degreeNodes papers conns).length + 1 := by
    have h1 := List.toFinset_card_le (papers.map AstraNode.Paper.id)
    rw [List.length_map] at h1
    rw [degreeNodes_length]
    omega
  have hids : ∀ i ∈ (degreeNodes papers conns).map (fun n => n.id),
      i ∈ (papers.map AstraNode.Paper.id).toFinset := by
    intro i hi
    rw [degreeNodes_map_id] at hi
    exact List.mem_toFinset.mpr hi
  obtain ⟨hG1, hG2, hG3, hG4, hG5, hG6⟩ :=
    componentsFold_spec (adjListOf (buildLinks conns))
      ((papers.map AstraNode.Paper.id).toFinset) hadjU
      ((degreeNodes papers conns).length + 1) hfuel
      ((degreeNodes papers conns).map (fun n => n.id)) hids
  have hA : (graphComponents papers conns).flatten.toFinset =
      (papers.map AstraNode.Paper.id).toFinset := by
    apply Finset.Subset.antisymm
    · intro x hx
      exact hG3 (hG1 ▸ hx)
    · intro x hx
      have hx2 : x ∈ (degreeNodes papers conns).map (fun n => n.id) := by
        rw [degreeNodes_map_id]
        exact List.mem_toFinset.mp hx
      exact hG1 ▸ hG4 x hx2
  refine ⟨hA, hG2, ?_, ?_, ?_, ?_⟩
  · intro n hn
    obtain ⟨hcluster, hid⟩ := buildGraph_node_cluster papers conns n hn
    have hflat : n.id ∈ (graphComponents papers conns).flatten := by
      rw [← List.mem_toFinset, hA]
      exact List.mem_toFinset.mpr hid
    obtain ⟨c, hc, hcin⟩ := List.mem_flatten.mp hflat
    obtain ⟨k, hk⟩ := List.mem_iff_get.mp hc
    refine ⟨k, hk ▸ hcin, ?_⟩
    rw [hcluster, labelMapAux_get (degreeNodes papers conns)
      (graphComponents papers conns) 0 k n.id hG2 (hk ▸ hcin)]
    rw [Option.getD_some, Nat.zero_add]
  · intro c hc
    obtain ⟨t, root, hct, _⟩ := hG5 c hc
    have hne : c.map (domainOfId (degreeNodes papers conns)) ≠ [] := by
      rw [hct]
      simp
    have hd := dominantDomain_spec (c.map (domainOfId (degreeNodes papers conns))) hne
    exact ⟨hne, hd.1, hd.2⟩
  · intro pre c suf hsplit a ha b
    have hiff := comp_mem_iff_reach (adjListOf (buildLinks conns))
      (graphComponents papers conns) hG2 hG6 hsym hG5 pre c suf hsplit a ha b
    have hcongr := reflTransGen_congr
      (fun u v => mem_adjListOf (buildLinks conns) u v) a b
    exact hiff.trans hcongr
  · intro a ha hnolinks
    have hadja : adjListOf (buildLinks conns) a = [] := by
      unfold adjListOf
      have : (buildLinks conns).filter (fun l => decide (l.source = a ∨ l.target = a)) = [] := by
        rw [List.filter_eq_nil_iff]
        intro l hl
        simp only [decide_eq_true_eq]
        rintro (hs | ht)
        · exact (hnolinks l hl).1 hs
        · exact (hnolinks l hl).2 ht
      rw [this]
      rfl
    have hflat : a ∈ (graphComponents papers conns).flatten := by
      rw [← List.mem_toFinset, hA]
      exact List.mem_toFinset.mpr ha
    obtain ⟨c, hc, hac⟩ := List.mem_flatten.mp hflat
    obtain ⟨t, root, hct, hr⟩ := hG5 c hc
    have hroot_a : root = a := by
      rcases (hr a hac).cases_tail with heq | ⟨m, _, hm⟩
      · exact heq.symm
      · have := hsym m a hm
        rw [hadja] at this
        exact absurd this (List.not_mem_nil _)
    subst hroot_a
    have hallc : ∀ x ∈ c, x = root := by
      intro x hx
      rcases (hr x hx).cases_head with h1 | ⟨m, hm, _⟩
      · exact h1.symm
      · rw [hadja] at hm
        exact absurd hm (List.not_mem_nil _)
    have hcnd : c.Nodup := by
      obtain ⟨p1, p2, hc12⟩ := List.append_of_mem hc
      exact (nodup_middle_of_flatten hc12 hG2).1
    have ht : t = [] := by
      cases t with
      | nil => rfl
      | cons x ts =>
        have hxa : x = root :=
          hallc x (by rw [hct]; exact List.mem_cons_of_mem _ (List.mem_cons_self _ _))
        rw [hct, List.nodup_cons] at hcnd
        exact absurd (by rw [hxa]; exact List.mem_cons_self _ _ : root ∈ x :: ts) hcnd.1
    rw [hct, ht] at hc
    exact hc

theorem buildGraph_clustering_spec_witness :
    (∀ cn ∈ ([{ source := "a", target := "b", strength := 1, sharedConcepts := [] }] :
        List AstraNode.Connection),
      cn.source ∈ ([{ id := "a", title := "t1" }, { id := "b", title := "t2" },
          { id := "c", title := "t3" }] : List AstraNode.Paper).map AstraNode.Paper.id ∧
      cn.target ∈ ([{ id := "a", title := "t1" }, { id := "b", title := "t2" },
          { id := "c", title := "t3" }] : List AstraNode.Paper).map AstraNode.Paper.id) ∧
    ((graphComponents [{ id := "a", title := "t1" }, { id := "b", title := "t2" },
        { id := "c", title := "t3" }]
        [{ source := "a", target := "b", strength := 1, sharedConcepts := [] }]).flatten.toFinset =
      (([{ id := "a", title := "t1" }, { id := "b", title := "t2" },
        { id := "c", title := "t3" }] : List AstraNode.Paper).map AstraNode.Paper.id).toFinset) :=
  ⟨by decide,
    (buildGraph_clustering_spec
      [{ id := "a", title := "t1" }, { id := "b", title := "t2" }, { id := "c", title := "t3" }]
      [{ source := "a", target := "b", strength := 1, sharedConcepts := [] }]
      (by decide)).1⟩

end AstraNode.GraphBuilder

namespace AstraNode.GraphRAG
open AstraNode.GraphBuilder

theorem dfsP_succ_def (links : List Link) (papers : List AstraNode.Paper)
    (targetId : String) (fuel : ℕ) (cur : String) (path : List PEntry)
    (vis : Finset String) :
    dfsP links papers targetId (fuel + 1) cur path vis =
      if cur = targetId ∧ 1 < path.length then [path]
      else
        ((links.filter (fun l => l.source = cur ∨ l.target = cur)).map (fun l =>
          if (if l.source = cur then l.target else l.source) ∈ insert cur vis then []
          else
            dfsP links papers targetId fuel (if l.source = cur then l.target else l.source)
              (path ++
                [{ paperId := (if l.source = cur then l.target else l.source)
                   connection := some l
                   paper := papers.find? (fun p => p.id = (if l.source = cur then l.target else l.source)) }])
              (insert cur vis))).flatten := rfl

theorem dfsP_spec (links : List Link) (papers : List AstraNode.Paper) (targetId : String) :
    ∀ (fuel : ℕ) (cur : String) (path : List PEntry) (vis : Finset String),
      path ≠ [] → path.getLast?.map PEntry.paperId = some cur →
      ∀ q ∈ dfsP links papers targetId fuel cur path vis,
        q.head? = path.head? ∧ 2 ≤ q.length ∧ q.length + 1 ≤ path.length + fuel ∧
        q.getLast?.map PEntry.paperId = some targetId := by
  intro fuel
  induction fuel with
  | zero =>
    intro cur path vis _ _ q hq
    simp [dfsP] at hq
  | succ fuel ih =>
    intro cur path vis hpne hplast q hq
    rw [dfsP_succ_def] at hq
    by_cases hacc : cur = targetId ∧ 1 < path.length
    · rw [if_pos hacc] at hq
      have hq2 : q = path := by simpa using hq
      subst hq2
      refine ⟨rfl, by omega, by omega, ?_⟩
      rw [hplast, hacc.1]
    · rw [if_neg hacc] at hq
      obtain ⟨sub, hsub, hqsub⟩ := List.mem_flatten.mp hq
      obtain ⟨l, _, hsubeq⟩ := List.mem_map.mp hsub
      by_cases hvis : (if l.source = cur then l.target else l.source) ∈ insert cur vis
      · rw [if_pos hvis] at hsubeq
        rw [← hsubeq] at hqsub
        exact absurd hqsub (List.not_mem_nil q)
      · rw [if_neg hvis] at hsubeq
        rw [← hsubeq] at hqsub
        have hres := ih (if l.source = cur then l.target else l.source)
          (path ++
            [{ paperId := (if l.source = cur then l.target else l.source)
               connection := some l
               paper := papers.find? (fun p => p.id = (if l.source = cur then l.target else l.source)) }])
          (insert cur vis) (by simp) (by simp) q hqsub
        refine ⟨?_, hres.2.1, ?_, hres.2.2.2⟩
        · rw [hres.1]
          cases path with
          | nil => exact absurd rfl hpne
          | cons a t => simp
        · have := hres.2.2.1
          rw [List.length_append, List.length_singleton] at this
          omega

/-- C3: every path returned by `findResearchPaths` has at least `2`
entries (the trivial start-only path is excluded), at most `maxHops`
traversed edges (at most `maxHops + 1` entries — the hop counter starts at
`0` and is bounded by `hops > maxHops`), starts at `startPaperId`, and
ends at `endPaperId`; ranking and truncation to the top `5` preserve
these. -/
theorem findResearchPaths_spec (graphData : Option Graph)
    (papers : List AstraNode.Paper) (startPaperId endPaperId : String) (maxHops : ℕ) :
    ∀ q ∈ findResearchPaths graphData papers startPaperId endPaperId maxHops,
      2 ≤ q.length ∧ q.length ≤ maxHops + 1 ∧
      q.head?.map PEntry.paperId = some startPaperId ∧
      q.getLast?.map PEntry.paperId = some endPaperId := by
  intro q hq
  match graphData with
  | none => simp [findResearchPaths] at hq
  | some g =>
    simp only [findResearchPaths] at hq
    have hq2 : q ∈ AstraNode.sortByKeyDesc pathStrength
        (dfsP g.links papers endPaperId (maxHops + 1) startPaperId
          [{ paperId := startPaperId }] ∅) :=
      (List.take_sublist 5 _).subset hq
    have hq3 := (AstraNode.mem_sortByKeyDesc pathStrength _ q).mp hq2
    have hspec := dfsP_spec g.links papers endPaperId (maxHops + 1) startPaperId
      [{ paperId := startPaperId }] ∅ (by simp) (by simp) q hq3
    refine ⟨hspec.2.1, ?_, ?_, hspec.2.2.2⟩
    · have := hspec.2.2.1
      rw [List.length_singleton] at this
      omega
    · rw [hspec.1]
      rfl

theorem findResearchPaths_spec_witness :
    (([{ paperId := "A" },
       { paperId := "B"
         connection := some { source := "A", target := "B", strength := 1, sharedConcepts := [], type := "strong" }
         paper := none }] : List PEntry) ∈
      findResearchPaths
        (some { nodes := ([] : List AstraNode.GraphBuilder.GNode)
                links := [{ source := "A", target := "B", strength := 1, sharedConcepts := [], type := "strong" }]
                stats := { totalNodes := 0, totalLinks := 0, averageDegree := none, clusters := 0 } })
        [] "A" "B" 3) ∧
    (2 ≤ ([{ paperId := "A" },
       { paperId := "B"
         connection := some { source := "A", target := "B", strength := 1, sharedConcepts := [], type := "strong" }
         paper := none }] : List PEntry).length ∧
      ([{ paperId := "A" },
       { paperId := "B"
         connection := some { source := "A", target := "B", strength := 1, sharedConcepts := [], type := "strong" }
         paper := none }] : List PEntry).length ≤ 3 + 1 ∧
      ([{ paperId := "A" },
       { paperId := "B"
         connection := some { source := "A", target := "B", strength := 1, sharedConcepts := [], type := "strong" }
         paper := none }] : List PEntry).head?.map PEntry.paperId = some ("A") ∧
      ([{ paperId := "A" },
       { paperId := "B"
         connection := some { source := "A", target := "B", strength := 1, sharedConcepts := [], type := "strong" }
         paper := none }] : List PEntry).getLast?.map PEntry.paperId = some ("B")) :=
  ⟨by decide,
    findResearchPaths_spec
      (some { nodes := ([] : List AstraNode.GraphBuilder.GNode)
              links := [{ source := "A", target := "B", strength := 1, sharedConcepts := [], type := "strong" }]
              stats := { totalNodes := 0, totalLinks := 0, averageDegree := none, clusters := 0 } })
      [] "A" "B" 3 _ (by decide)⟩

theorem density_formula (lc n : ℕ) :
    AstraNode.jsDivQ (lc : ℚ) ((n : ℚ) * ((n : ℚ) - 1) / 2) =
      if n ≤ 1 then none
      else some ((lc : ℚ) / ((n : ℚ) * ((n : ℚ) - 1) / 2)) := by
  unfold AstraNode.jsDivQ
  by_cases hn : n ≤ 1
  · rw [if_pos hn]
    have hz : (n : ℚ) * ((n : ℚ) - 1) / 2 = 0 := by
      interval_cases n <;> norm_num
    rw [if_pos hz]
  · rw [if_neg hn]
    have h2 : (2 : ℚ) ≤ (n : ℚ) := by exact_mod_cast (by omega : 2 ≤ n)
    have hpos : 0 < (n : ℚ) * ((n : ℚ) - 1) / 2 := by
      apply div_pos
      · apply mul_pos <;> linarith
      · norm_num
    rw [if_neg (ne_of_gt hpos)]

/-- C8 (amended): the density reported by `getGraphContext` is the
unguarded JS division `linkCount / (nodeCount * (nodeCount - 1) / 2)`:
when the subgraph has `nodeCount ≤ 1` the denominator is `0` and the JS
value is non-finite (`0/0 = NaN`, or `+Infinity` given a self-loop) —
modelled `none` — not `0`; when `nodeCount ≥ 2` it is the finite quotient
`linkCount / (nodeCount * (nodeCount - 1) / 2)` as the claim states. -/
theorem getGraphContext_density_formula (g : Graph) (papers : List SPaper) :
    (getGraphContext g papers).stats.density =
      if (getGraphContext g papers).stats.nodeCount ≤ 1 then none
      else some (((getGraphContext g papers).stats.linkCount : ℚ) /
        (((getGraphContext g papers).stats.nodeCount : ℚ) *
          (((getGraphContext g papers).stats.nodeCount : ℚ) - 1) / 2)) :=
  density_formula _ _

/-- C8 (counterexample): for an empty result set the subgraph has
`nodeCount = 0` and the reported density is `NaN` (`none`), not `0` as the
claim asserts. -/
theorem getGraphContext_density_cex :
    (getGraphContext
      { nodes := ([] : List GNode)
        links := ([] : List Link)
        stats := { totalNodes := 0, totalLinks := 0, averageDegree := none, clusters := 0 } }
      []).stats.nodeCount = 0 ∧
    (getGraphContext
      { nodes := ([] : List GNode)
        links := ([] : List Link)
        stats := { totalNodes := 0, totalLinks := 0, averageDegree := none, clusters := 0 } }
      []).stats.density = none ∧
    (getGraphContext
      { nodes := ([] : List GNode)
        links := ([] : List Link)
        stats := { totalNodes := 0, totalLinks := 0, averageDegree := none, clusters := 0 } }
      []).stats.density ≠ some 0 := by
  have h : (getGraphContext
      { nodes := ([] : List GNode)
        links := ([] : List Link)
        stats := { totalNodes := 0, totalLinks := 0, averageDegree := none, clusters := 0 } }
      []).stats.density = none := by
    norm_num [getGraphContext, AstraNode.jsDivQ]
  refine ⟨rfl, h, ?_⟩
  rw [h]
  exact fun hc => Option.noConfusion hc

/-- C9 (amended): any failure of the search step or of the
insight-synthesis step is caught by `queryGraph`'s outer `try/catch` and
answered with the `fallbackQuery` result.  When the fallback's own
keyword search returns normally — every query term compiled by the regex
facility — the caller receives, instead of a raise, a degraded result
whose results are the keyword-search results, whose metadata carries
`fallbackMode = true` and whose insights (the local synthesis) carry
`aiGenerated = false`.  When the keyword search throws instead — a query
term that is an invalid regex pattern, such as `c++` — `fallbackQuery`
runs it unguarded and `queryGraph` raises to the caller. -/
theorem queryGraph_fallback_on_failure (re : RegexBehavior)
    (papers : List AstraNode.Paper)
    (graphData : Option Graph) (query : String) (maxResults : ℕ)
    (includeConnections useGraphStructure : Bool)
    (searchStep : Except Unit (List SPaper))
    (insightStep : List SPaper → Except Unit Insights)
    (hfail : searchStep = Except.error () ∨
      ∃ relevantPapers, searchStep = Except.ok relevantPapers ∧
        insightStep (if useGraphStructure then
            expandWithGraphContext papers graphData relevantPapers
          else relevantPapers) = Except.error ()) :
    queryGraphModel re papers graphData query maxResults includeConnections
        useGraphStructure searchStep insightStep =
      fallbackQuery re papers query maxResults ∧
    (∀ results, keywordBasedSearch re papers query maxResults = Except.ok results →
      queryGraphModel re papers graphData query maxResults includeConnections
          useGraphStructure searchStep insightStep =
        Except.ok
          { query := query
            results := results
            insights := generateBasicInsights query results
            connections := []
            graphContext := none
            metadata :=
              { totalRelevant := results.length
                fallbackMode := true } } ∧
      (generateBasicInsights query results).aiGenerated = false) ∧
    (keywordBasedSearch re papers query maxResults = Except.error () →
      queryGraphModel re papers graphData query maxResults includeConnections
        useGraphStructure searchStep insightStep = Except.error ()) := by
  have hfb : queryGraphModel re papers graphData query maxResults includeConnections
      useGraphStructure searchStep insightStep =
      fallbackQuery re papers query maxResults := by
    rcases hfail with hferr | ⟨relevantPapers, hok, hierr⟩
    · rw [hferr]
      rfl
    · rw [hok]
      simp only [queryGraphModel]
      rw [hierr]
  refine ⟨hfb, ?_, ?_⟩
  · intro results hkw
    rw [hfb]
    refine ⟨?_, rfl⟩
    simp only [fallbackQuery]
    rw [hkw]
    rfl
  · intro hkwerr
    rw [hfb]
    simp only [fallbackQuery]
    rw [hkwerr]
    rfl

theorem queryGraph_fallback_on_failure_witness :
    ((Except.error () : Except Unit (List SPaper)) = Except.error () ∨
      ∃ relevantPapers, (Except.error () : Except Unit (List SPaper)) =
          Except.ok relevantPapers ∧
        (fun ps => Except.ok (generateBasicInsights "" ps))
          (if true then expandWithGraphContext [] none relevantPapers
            else relevantPapers) = Except.error ()) ∧
    (queryGraphModel literalRegexCount [] none "" 10 true true (Except.error ())
        (fun ps => Except.ok (generateBasicInsights "" ps)) =
      fallbackQuery literalRegexCount [] "" 10 ∧
    (∀ results, keywordBasedSearch literalRegexCount [] "" 10 = Except.ok results →
      queryGraphModel literalRegexCount [] none "" 10 true true (Except.error ())
          (fun ps => Except.ok (generateBasicInsights "" ps)) =
        Except.ok
          { query := ""
            results := results
            insights := generateBasicInsights "" results
            connections := []
            graphContext := none
            metadata :=
              { totalRelevant := results.length
                fallbackMode := true } } ∧
      (generateBasicInsights "" results).aiGenerated = false) ∧
    (keywordBasedSearch literalRegexCount [] "" 10 = Except.error () →
      queryGraphModel literalRegexCount [] none "" 10 true true (Except.error ())
        (fun ps => Except.ok (generateBasicInsights "" ps)) = Except.error ())) :=
  ⟨Or.inl rfl,
    queryGraph_fallback_on_failure literalRegexCount [] none "" 10 true true
      (Except.error ())
      (fun ps => Except.ok (generateBasicInsights "" ps)) (Or.inl rfl)⟩

/-- C9 (counterexample to the unconditional no-raise reading): the query
`c++` lower-cases and splits to the single term `c++` (length `3 > 2`,
so it survives the term filter), which is an invalid regex pattern; with
a non-empty paper store the keyword search compiles it while scoring the
first paper and throws — inside `fallbackQuery`, since the `catch`
handler runs it unguarded — so a failed search step ends in a raise to
the caller, not in a degraded flagged result. -/
theorem queryGraph_raises_cex :
    queryGraphModel cppRegex [{ id := "p1", title := "c systems" }] none ("c++") 10
      true true (Except.error ())
      (fun ps => Except.ok (generateBasicInsights ("c++") ps)) = Except.error () := by
  have hlow : ("c++").toLower = "c++" := by
    show String.map Char.toLower ("c++") = "c++"
    rw [String.map_eq]
    decide
  have hterms : queryTerms ("c++") = ["c++"] := by
    simp only [queryTerms, hlow]
    decide
  simp only [queryGraphModel, fallbackQuery, keywordBasedSearch, hterms]
  rfl

/-- C10 (code evaluation at the failing input): the direct search found
one paper, expansion adds a second, yet the reported metadata says
`semanticMatches = 2` and `graphExpanded = 0` — because
`expandWithGraphContext` pushes into its argument array and returns that
same array, `relevantPapers.length` is read after mutation.  The claim's
`semanticMatches = 1` and `graphExpanded = totalRelevant − semanticMatches
= 1` do not hold. -/
theorem queryGraph_metadata_bug :
    c10Search.length = 1 ∧
    (queryGraphModel literalRegexCount c10Papers (some c10Graph) ("alpha") 10 true true
      (Except.ok c10Search)
      (fun ps => Except.ok (generateBasicInsights ("alpha") ps))).map
      (fun r => r.metadata.totalRelevant) = Except.ok 2 ∧
    (queryGraphModel literalRegexCount c10Papers (some c10Graph) ("alpha") 10 true true
      (Except.ok c10Search)
      (fun ps => Except.ok (generateBasicInsights ("alpha") ps))).map
      (fun r => r.metadata.semanticMatches) = Except.ok (some 2) ∧
    (queryGraphModel literalRegexCount c10Papers (some c10Graph) ("alpha") 10 true true
      (Except.ok c10Search)
      (fun ps => Except.ok (generateBasicInsights ("alpha") ps))).map
      (fun r => r.metadata.graphExpanded) = Except.ok (some 0) := by
  have hexp : (expandWithGraphContext c10Papers (some c10Graph) c10Search).length = 2 := by
    show (AstraNode.sortByKeyDesc (fun p => p.relevanceScore)
      (c10Search.foldl (expandStep c10Papers c10Graph)
        (c10Search, (c10Search.map (fun p => p.id)).toFinset)).1).length = 2
    rw [(AstraNode.perm_sortByKeyDesc (fun p : SPaper => p.relevanceScore)
      ((c10Search.foldl (expandStep c10Papers c10Graph)
        (c10Search, (c10Search.map (fun p => p.id)).toFinset)).1)).length_eq]
    simp only [c10Search, List.foldl_cons, List.foldl_nil, expandStep, c10Graph, c10Papers]
    norm_num [List.find?, List.filter]
    rw [if_neg (by decide : ¬("p2" : String) = "p1"),
      decide_eq_false (by decide : ¬("p1" : String) = "p2")]
    rfl
  refine ⟨rfl, ?_, ?_, ?_⟩ <;>
    simp only [queryGraphModel, if_true, Except.map] <;>
    simp [hexp]

end AstraNode.GraphRAG
